import Mathlib

/-!
# A verification model of the toy-db SQL engine

This file is a shallow embedding, in Lean 4, of the Python sources under
`python/toydb` (parser.py, ast_nodes.py, catalog.py, executor.py,
aggregates.py, planner.py).  Pure Python functions become Lean functions;
the mutable storage engine becomes explicit state passing over an ordered
association list; Python exceptions become `Except` values that carry the
message and the store at the point where the exception was raised.

The storage engine module (`_storage_engine`, the B-tree / WAL layer) is not
part of the source tree; where its behaviour is needed it is modelled from
the specification (ordered key-value map, inclusive `range_scan`,
overwriting `insert`) and each such definition says so in its doc comment.

Python `float` literals are modelled by rationals (`Rat`); the only place a
numeric literal of the sources matters to a theorem is the planner's
selectivity table, where both the code and the spec use the same decimal
literals, so the identification is faithful.
-/

/-- Python `s.startswith(pre)` (restated over the character lists so that
it evaluates definitionally). -/
def pyStartsWith (s pre : String) : Bool := pre.data.isPrefixOf s.data

/-- Python whitespace test for `str.strip`. -/
def isSpaceChar (c : Char) : Bool :=
  c == ' ' || c == '\t' || c == '\n' || c == '\r'

/-- Python `s.strip()` (ASCII whitespace). -/
def pyStrip (s : String) : String :=
  String.mk (((s.data.dropWhile isSpaceChar).reverse.dropWhile isSpaceChar).reverse)

/-- ASCII upper-casing, Python `str.upper` on the ASCII inputs of this
development, re-stated over the character list so that it evaluates
definitionally. -/
def charUpper (c : Char) : Char :=
  if 97 ≤ c.toNat ∧ c.toNat ≤ 122 then Char.ofNat (c.toNat - 32) else c

/-- Python `s.upper()`. -/
def pyToUpper (s : String) : String := String.mk (s.data.map charUpper)

/-- Runtime values as they occur in the executor's row dictionaries:
Python `int`, `float`, `str`, `bool` and `None`. -/
inductive Value where
  | vInt (i : Int)
  | vFloat (q : Rat)
  | vStr (s : String)
  | vBool (b : Bool)
  | vNull
deriving DecidableEq, Repr

/-- Characters are compared by code point, as Python does. -/
def lexLtB : List Char → List Char → Bool
  | [], [] => false
  | [], _ :: _ => true
  | _ :: _, [] => false
  | a :: as, b :: bs =>
    if a.toNat < b.toNat then true
    else if b.toNat < a.toNat then false
    else lexLtB as bs

/-- Python `<` on strings (lexicographic by code point). -/
def strLtB (a b : String) : Bool := lexLtB a.data b.data

/-- Python `<=` on strings. -/
def strLeB (a b : String) : Bool := !(strLtB b a)

/-- Python `str.split(sep)` for a one-character separator: auxiliary. -/
def splitCharAux (c : Char) : List Char → List Char → List String
  | [], acc => [String.mk acc.reverse]
  | x :: xs, acc =>
    if x = c then String.mk acc.reverse :: splitCharAux c xs []
    else splitCharAux c xs (x :: acc)

/-- Python `s.split(c)` for a single-character separator `c`:
always returns one more segment than there are separators. -/
def splitChar (c : Char) (s : String) : List String :=
  splitCharAux c s.data []

/-- The decimal digit character for `n < 10`. -/
def digitChar (n : Nat) : Char := Char.ofNat (48 + n)

/-- Decimal representation of a natural number (auxiliary, fuelled). -/
def natReprAux : Nat → Nat → List Char
  | 0, _ => []
  | fuel + 1, n =>
    if n < 10 then [digitChar n]
    else natReprAux fuel (n / 10) ++ [digitChar (n % 10)]

/-- Python `str(n)` for a non-negative integer. -/
def natRepr (n : Nat) : String := String.mk (natReprAux (n + 1) n)

/-- Python `str(i)` for an integer. -/
def intRepr (i : Int) : String :=
  if i < 0 then "-" ++ natRepr i.natAbs else natRepr i.natAbs

/-- Numeric value of a decimal digit character. -/
def digitVal (ch : Char) : Nat := ch.val.toNat - 48

/-- Decimal digits to a natural number. -/
def digitsToNat (l : List Char) : Nat :=
  l.foldl (fun acc ch => acc * 10 + digitVal ch) 0

/-- Python `int(s)`: an optional sign followed by decimal digits.
(Python also strips surrounding whitespace and allows `_` separators;
no input in this development contains either.) -/
def pyIntParse (s : String) : Option Int :=
  match s.data with
  | [] => none
  | c :: rest =>
    if c = '-' then
      if !rest.isEmpty && rest.all Char.isDigit then some (-(digitsToNat rest : Int))
      else none
    else if c = '+' then
      if !rest.isEmpty && rest.all Char.isDigit then some ((digitsToNat rest : Int))
      else none
    else if (c :: rest).all Char.isDigit then some ((digitsToNat (c :: rest) : Int))
    else none

/-- Python `float(s)` on the simple decimal shapes `d+`, `d+.d*`, `.d+`,
optionally signed.  (Exponent forms never occur in this development.) -/
def pyFloatParse (s : String) : Option Rat :=
  let core : List Char → Option Rat := fun l =>
    match splitCharAux '.' l [] with
    | [a] =>
      if !a.isEmpty && a.data.all Char.isDigit then some ((digitsToNat a.data : Rat)) else none
    | [a, b] =>
      if (a.data.all Char.isDigit && b.data.all Char.isDigit) && !(a.isEmpty && b.isEmpty) then
        some ((digitsToNat a.data : Rat) + (digitsToNat b.data : Rat) / ((10 : Rat) ^ b.length))
      else none
    | _ => none
  match s.data with
  | '-' :: rest => (core rest).map (fun q => -q)
  | '+' :: rest => core rest
  | l => core l

/-- Crude rendering of a rational; Python renders floats in decimal, but no
verified statement depends on the rendering of a float. -/
def ratRepr (q : Rat) : String := intRepr q.num ++ "/" ++ natRepr q.den

/-- Python `str(v)` as used when serializing row values. -/
def pyStr : Value → String
  | .vInt i => intRepr i
  | .vFloat q => ratRepr q
  | .vStr s => s
  | .vBool b => if b then "True" else "False"
  | .vNull => "None"

/-- Numeric view of a value: Python treats `bool` as the integers 0/1. -/
def valueToRat : Value → Option Rat
  | .vInt i => some (i : Rat)
  | .vFloat q => some q
  | .vBool b => some (if b then 1 else 0)
  | _ => none

/-- Python `<` on values.  Numeric pairs compare numerically and strings
lexicographically; any other pair raises `TypeError` in Python, which this
Bool-valued model totalises to `false`.  Every ordering theorem below is
therefore stated under a homogeneous-integer-keys hypothesis. -/
def valueLtB : Value → Value → Bool
  | .vStr a, .vStr b => strLtB a b
  | a, b =>
    match valueToRat a, valueToRat b with
    | some x, some y => decide (x < y)
    | _, _ => false

/-- Python `==` on values (`1 == True` holds; values of unrelated types are
unequal). -/
def pyEqB : Value → Value → Bool
  | .vStr a, .vStr b => a == b
  | .vNull, .vNull => true
  | a, b =>
    match valueToRat a, valueToRat b with
    | some x, some y => decide (x = y)
    | _, _ => false

/-- Python truthiness, used by `if row matches` style checks. -/
def truthy : Value → Bool
  | .vInt i => i != 0
  | .vFloat q => q != 0
  | .vStr s => s != ""
  | .vBool b => b
  | .vNull => false

/-! ## The storage engine

Modelled from the spec (the `_storage_engine` module is not in the source
tree): §4.3/§4.5 describe an ordered map from string keys to string values
where `insert` overwrites, `get` returns the value or fails, and
`range_scan(lo, hi)` returns the pairs with `lo ≤ key ≤ hi` in ascending
key order.  The store is a key-sorted association list. -/
abbrev Store := List (String × String)

/-- Modelled from the spec: `insert(key, value)` of the transactional store —
overwrite if the key exists, otherwise insert keeping keys sorted. -/
def storePut : Store → String → String → Store
  | [], k, v => [(k, v)]
  | (k1, v1) :: rest, k, v =>
    if strLtB k k1 then (k, v) :: (k1, v1) :: rest
    else if k = k1 then (k, v) :: rest
    else (k1, v1) :: storePut rest k v

/-- Modelled from the spec: `get(key)` returns the stored value, if any. -/
def storeGet (s : Store) (k : String) : Option String :=
  match s.find? (fun kv => kv.1 == k) with
  | some kv => some kv.2
  | none => none

/-- Modelled from the spec: `range_scan(lo, hi)`, inclusive on both ends,
in key order (the store is key-sorted). -/
def rangeScan (s : Store) (lo hi : String) : Store :=
  s.filter (fun kv => strLeB lo kv.1 && strLeB kv.1 hi)

/-- A stable insertion into a list sorted by the strict comparator `lt`:
the new element goes in front of the first element not strictly below it. -/
def insertSorted (lt : α → α → Bool) (a : α) : List α → List α
  | [] => [a]
  | b :: l => if lt b a then b :: insertSorted lt a l else a :: b :: l

/-- Stable sort by a strict comparator, as Python's `list.sort`:
equal elements keep their original relative order. -/
def sortStable (lt : α → α → Bool) : List α → List α
  | [] => []
  | a :: l => insertSorted lt a (sortStable lt l)

/-! ## AST (ast_nodes.py)

The dataclasses of `ast_nodes.py`.  Note that `SelectStmt` has no
`table_alias` field and `JoinClause` has no `alias` field — the executor's
`_execute_join` nevertheless reads `stmt.table_alias` and `join.alias`,
which in Python raises `AttributeError`; the executor model reproduces
that. -/

/-- `ColumnDef`: column name and declared type tag. -/
structure ColumnDef where
  name : String
  type : String
deriving DecidableEq, Repr

/-- `Expr` of ast_nodes.py: `ColumnRef`, `Literal`, `BinaryOp`. -/
inductive Expr where
  | col (name : String)
  | lit (v : Value)
  | bin (left : Expr) (op : String) (right : Expr)
deriving DecidableEq, Repr

/-- `JoinClause`: join type, joined table, ON condition (no alias field). -/
structure JoinClause where
  joinType : String
  tableName : String
  onCondition : Expr
deriving DecidableEq, Repr

/-- `SelectStmt` (no `table_alias` field). -/
structure SelectStmt where
  columns : List String
  tableName : String
  whereE : Option Expr := none
  orderBy : Option String := none
  limit : Option Int := none
  join : Option JoinClause := none
  groupBy : Option (List String) := none
  having : Option Expr := none
deriving DecidableEq, Repr

/-- The statement variants of ast_nodes.py. -/
inductive Stmt where
  | createTable (tableName : String) (columns : List ColumnDef)
  | dropTable (tableName : String)
  | alterTable (tableName : String) (action : String) (column : ColumnDef)
  | createIndex (indexName tableName columnName : String)
  | dropIndex (indexName : String)
  | insert (tableName : String) (values : List Value)
  | select (sel : SelectStmt)
  | update (tableName : String) (assignments : List (String × Value)) (whereE : Option Expr)
  | delete (tableName : String) (whereE : Option Expr)
  | explain (inner : Stmt)
deriving DecidableEq, Repr

/-! ## Tokenizer (`SQLParser._tokenize`)

The regex `'[^']*'|\"[^\"]*\"|\d+\.?\d*|\w+|>=|<=|!=|[=><(),;*]` applied
with `re.findall`, which scans left to right, tries the alternatives in
order at each position and skips a character on which no alternative
matches.  Note that a bare `.` matches no alternative, so a dot between
identifiers (as in `u.name`) is silently dropped. -/

/-- The regex class `\w` (ASCII view; every input here is ASCII). -/
def isWordCharB (c : Char) : Bool := c.isAlpha || c.isDigit || c = '_'

/-- Scan a quoted literal: `l` are the characters after the opening quote;
returns the body and the rest after the closing quote, if the quote closes. -/
def scanQuoted (q : Char) (l : List Char) : Option (List Char × List Char) :=
  match l.span (fun c => !(c == q)) with
  | (body, c :: rest) => if c = q then some (body, rest) else none
  | (_, []) => none

/-- One findall step per recursive call; each call consumes at least one
character, so `fuel = length + 1` suffices. -/
def tokenizeAux : Nat → List Char → List String
  | 0, _ => []
  | _, [] => []
  | fuel + 1, c :: rest =>
    if c = '\'' then
      match scanQuoted '\'' rest with
      | some (body, rest2) => String.mk ('\'' :: body ++ ['\'']) :: tokenizeAux fuel rest2
      | none => tokenizeAux fuel rest
    else if c = '"' then
      match scanQuoted '"' rest with
      | some (body, rest2) => String.mk ('"' :: body ++ ['"']) :: tokenizeAux fuel rest2
      | none => tokenizeAux fuel rest
    else if c.isDigit then
      match (c :: rest).span Char.isDigit with
      | (ds, r1) =>
        match r1 with
        | '.' :: r2 =>
          match r2.span Char.isDigit with
          | (ds2, r3) => String.mk (ds ++ '.' :: ds2) :: tokenizeAux fuel r3
        | _ => String.mk ds :: tokenizeAux fuel r1
    else if isWordCharB c then
      match (c :: rest).span isWordCharB with
      | (ws, r1) => String.mk ws :: tokenizeAux fuel r1
    else if c = '>' then
      match rest with
      | '=' :: r2 => ">=" :: tokenizeAux fuel r2
      | _ => ">" :: tokenizeAux fuel rest
    else if c = '<' then
      match rest with
      | '=' :: r2 => "<=" :: tokenizeAux fuel r2
      | _ => "<" :: tokenizeAux fuel rest
    else if c = '!' then
      match rest with
      | '=' :: r2 => "!=" :: tokenizeAux fuel r2
      | _ => tokenizeAux fuel rest
    else if c = '=' || c = '(' || c = ')' || c = ',' || c = ';' || c = '*' then
      String.mk [c] :: tokenizeAux fuel rest
    else
      tokenizeAux fuel rest

/-- `SQLParser._tokenize`.  (The trailing `if t.strip()` filter of the
source removes nothing: no alternative can produce a whitespace-only
token.) -/
def tokenizeSQL (s : String) : List String := tokenizeAux (s.data.length + 1) s.data

/-! ## Parser (`SQLParser`)

The recursive-descent parser over the token list.  Parser state is the
fixed token list plus a position; each function returns the parsed node and
the new position, or the message of the `ParseError` the Python code would
raise.  The source's `while` loops consume at least one token per
iteration, so a fuel of `tokens.length + 1` is enough everywhere; the
`"out of fuel"` branches are unreachable at that fuel. -/

/-- `SQLParser.current`. -/
def currentTok (toks : List String) (pos : Nat) : Option String := toks.get? pos

/-- `SQLParser.advance`. -/
def advanceTok (toks : List String) (pos : Nat) : Except String (String × Nat) :=
  match toks.get? pos with
  | some t => .ok (t, pos + 1)
  | none => .error "Unexpected end of input"

/-- `SQLParser.expect`: consume one token and compare case-insensitively;
the error message names the offending token (and carries no position). -/
def expectTok (toks : List String) (pos : Nat) (expected : String) :
    Except String (String × Nat) :=
  match advanceTok toks pos with
  | .error e => .error e
  | .ok (t, p2) =>
    if (pyToUpper t) = (pyToUpper expected) then .ok (t, p2)
    else .error ("Expected '" ++ expected ++ "', got '" ++ t ++ "'")

/-- `SQLParser.match`: does the current token match one of the keywords? -/
def matchTok (toks : List String) (pos : Nat) (kws : List String) : Bool :=
  match currentTok toks pos with
  | some t => kws.any (fun k => (pyToUpper t) = (pyToUpper k))
  | none => false

/-- The value part of `SQLParser.parse_literal` (given the consumed token). -/
def parseLiteralVal (t : String) : Value :=
  if pyStartsWith t "'" || pyStartsWith t "\"" then
    .vStr (String.mk (t.data.drop 1).dropLast)
  else if t.data.contains '.' then
    match pyFloatParse t with
    | some q => .vFloat q
    | none => .vStr t
  else
    match pyIntParse t with
    | some i => .vInt i
    | none => .vStr t

/-- `SQLParser.parse_literal`. -/
def parseLiteral (toks : List String) (pos : Nat) : Except String (Value × Nat) :=
  match advanceTok toks pos with
  | .error e => .error e
  | .ok (t, p2) => .ok (parseLiteralVal t, p2)

/-- The test `token.replace(".", "").isdigit()` of `parse_primary`. -/
def isNumberTok (t : String) : Bool :=
  let l := t.data.filter (fun c => !(c == '.'))
  !l.isEmpty && l.all Char.isDigit

/-- `SQLParser.parse_primary`. -/
def parsePrimary (toks : List String) (pos : Nat) : Except String (Expr × Nat) :=
  match currentTok toks pos with
  | none => .error "Unexpected end of expression"
  | some t =>
    if pyStartsWith t "'" || pyStartsWith t "\"" then
      match parseLiteral toks pos with
      | .error e => .error e
      | .ok (v, p2) => .ok (.lit v, p2)
    else if isNumberTok t then
      match parseLiteral toks pos with
      | .error e => .error e
      | .ok (v, p2) => .ok (.lit v, p2)
    else
      .ok (.col t, pos + 1)

/-- `SQLParser.parse_comparison`. -/
def parseComparison (toks : List String) (pos : Nat) : Except String (Expr × Nat) :=
  match parsePrimary toks pos with
  | .error e => .error e
  | .ok (left, p1) =>
    if matchTok toks p1 ["=", ">", "<", ">=", "<=", "!="] then
      match advanceTok toks p1 with
      | .error e => .error e
      | .ok (op, p2) =>
        match parsePrimary toks p2 with
        | .error e => .error e
        | .ok (right, p3) => .ok (.bin left op right, p3)
    else .ok (left, p1)

/-- The `while self.match("AND")` loop of `parse_and_expr`. -/
def parseAndRest : Nat → List String → Nat → Expr → Except String (Expr × Nat)
  | 0, _, _, _ => .error "out of fuel"
  | fuel + 1, toks, pos, left =>
    if matchTok toks pos ["AND"] then
      match advanceTok toks pos with
      | .error e => .error e
      | .ok (op, p1) =>
        match parseComparison toks p1 with
        | .error e => .error e
        | .ok (right, p2) => parseAndRest fuel toks p2 (.bin left (pyToUpper op) right)
    else .ok (left, pos)

/-- `SQLParser.parse_and_expr`. -/
def parseAndExpr (fuel : Nat) (toks : List String) (pos : Nat) : Except String (Expr × Nat) :=
  match parseComparison toks pos with
  | .error e => .error e
  | .ok (left, p1) => parseAndRest fuel toks p1 left

/-- The `while self.match("OR")` loop of `parse_or_expr`. -/
def parseOrRest : Nat → List String → Nat → Expr → Except String (Expr × Nat)
  | 0, _, _, _ => .error "out of fuel"
  | fuel + 1, toks, pos, left =>
    if matchTok toks pos ["OR"] then
      match advanceTok toks pos with
      | .error e => .error e
      | .ok (op, p1) =>
        match parseAndExpr fuel toks p1 with
        | .error e => .error e
        | .ok (right, p2) => parseOrRest fuel toks p2 (.bin left (pyToUpper op) right)
    else .ok (left, pos)

/-- `SQLParser.parse_expression` (= `parse_or_expr`). -/
def parseExpression (fuel : Nat) (toks : List String) (pos : Nat) :
    Except String (Expr × Nat) :=
  match parseAndExpr fuel toks pos with
  | .error e => .error e
  | .ok (left, p1) => parseOrRest fuel toks p1 left

/-- `SQLParser._parse_column_expression`. -/
def parseColumnExpression (toks : List String) (pos : Nat) : Except String (String × Nat) :=
  if matchTok toks pos ["COUNT", "SUM", "AVG", "MIN", "MAX"] then
    match advanceTok toks pos with
    | .error e => .error e
    | .ok (funcName, p1) =>
      match expectTok toks p1 "(" with
      | .error e => .error e
      | .ok (_, p2) =>
        if matchTok toks p2 ["*"] then
          match expectTok toks (p2 + 1) ")" with
          | .error e => .error e
          | .ok (_, p3) => .ok (funcName ++ "(*)", p3)
        else
          match advanceTok toks p2 with
          | .error e => .error e
          | .ok (arg, p3) =>
            if matchTok toks p3 ["."] then
              match advanceTok toks (p3 + 1) with
              | .error e => .error e
              | .ok (arg2, p4) =>
                match expectTok toks p4 ")" with
                | .error e => .error e
                | .ok (_, p5) => .ok (funcName ++ "(" ++ arg ++ "." ++ arg2 ++ ")", p5)
            else
              match expectTok toks p3 ")" with
              | .error e => .error e
              | .ok (_, p4) => .ok (funcName ++ "(" ++ arg ++ ")", p4)
  else
    match advanceTok toks pos with
    | .error e => .error e
    | .ok (col, p1) =>
      if matchTok toks p1 ["."] then
        match advanceTok toks (p1 + 1) with
        | .error e => .error e
        | .ok (col2, p2) => .ok (col ++ "." ++ col2, p2)
      else .ok (col, p1)

/-- The select-list loop of `parse_select`. -/
def parseSelectCols : Nat → List String → Nat → List String → Except String (List String × Nat)
  | 0, _, _, _ => .error "out of fuel"
  | fuel + 1, toks, pos, acc =>
    match parseColumnExpression toks pos with
    | .error e => .error e
    | .ok (ce, p1) =>
      if matchTok toks p1 [","] then parseSelectCols fuel toks (p1 + 1) (acc ++ [ce])
      else .ok (acc ++ [ce], p1)

/-- The GROUP BY column loop of `parse_select`. -/
def parseGroupCols : Nat → List String → Nat → List String →
    Except String (List String × Nat)
  | 0, _, _, _ => .error "out of fuel"
  | fuel + 1, toks, pos, acc =>
    match advanceTok toks pos with
    | .error e => .error e
    | .ok (c, p1) =>
      if matchTok toks p1 [","] then parseGroupCols fuel toks (p1 + 1) (acc ++ [c])
      else .ok (acc ++ [c], p1)

/-- `SQLParser.parse_join`. -/
def parseJoin (fuel : Nat) (toks : List String) (pos : Nat) :
    Except String (JoinClause × Nat) :=
  let (joinType, p0) : String × Nat :=
    if matchTok toks pos ["INNER", "LEFT", "RIGHT"] then
      match toks.get? pos with
      | some t => ((pyToUpper t), pos + 1)
      | none => ("INNER", pos)
    else ("INNER", pos)
  match expectTok toks p0 "JOIN" with
  | .error e => .error e
  | .ok (_, p1) =>
    match advanceTok toks p1 with
    | .error e => .error e
    | .ok (joinTable, p2) =>
      match expectTok toks p2 "ON" with
      | .error e => .error e
      | .ok (_, p3) =>
        match parseExpression fuel toks p3 with
        | .error e => .error e
        | .ok (cond, p4) => .ok (⟨joinType, joinTable, cond⟩, p4)

/-- `SQLParser.parse_select`. -/
def parseSelect (fuel : Nat) (toks : List String) (pos : Nat) :
    Except String (SelectStmt × Nat) :=
  match expectTok toks pos "SELECT" with
  | .error e => .error e
  | .ok (_, p1) =>
    let colsRes : Except String (List String × Nat) :=
      if matchTok toks p1 ["*"] then .ok (["*"], p1 + 1)
      else parseSelectCols fuel toks p1 []
    match colsRes with
    | .error e => .error e
    | .ok (columns, p2) =>
      match expectTok toks p2 "FROM" with
      | .error e => .error e
      | .ok (_, p3) =>
        match advanceTok toks p3 with
        | .error e => .error e
        | .ok (tableName, p4) =>
          let joinRes : Except String (Option JoinClause × Nat) :=
            if matchTok toks p4 ["INNER", "LEFT", "RIGHT", "JOIN"] then
              match parseJoin fuel toks p4 with
              | .error e => .error e
              | .ok (j, p5) => .ok (some j, p5)
            else .ok (none, p4)
          match joinRes with
          | .error e => .error e
          | .ok (join, p5) =>
            let whereRes : Except String (Option Expr × Nat) :=
              if matchTok toks p5 ["WHERE"] then
                match parseExpression fuel toks (p5 + 1) with
                | .error e => .error e
                | .ok (w, p6) => .ok (some w, p6)
              else .ok (none, p5)
            match whereRes with
            | .error e => .error e
            | .ok (whereE, p6) =>
              let groupRes : Except String (Option (List String) × Nat) :=
                if matchTok toks p6 ["GROUP"] then
                  match expectTok toks (p6 + 1) "BY" with
                  | .error e => .error e
                  | .ok (_, p7) =>
                    match parseGroupCols fuel toks p7 [] with
                    | .error e => .error e
                    | .ok (g, p8) => .ok (some g, p8)
                else .ok (none, p6)
              match groupRes with
              | .error e => .error e
              | .ok (groupBy, p8) =>
                let havingRes : Except String (Option Expr × Nat) :=
                  if matchTok toks p8 ["HAVING"] then
                    match parseExpression fuel toks (p8 + 1) with
                    | .error e => .error e
                    | .ok (h, p9) => .ok (some h, p9)
                  else .ok (none, p8)
                match havingRes with
                | .error e => .error e
                | .ok (having, p9) =>
                  let orderRes : Except String (Option String × Nat) :=
                    if matchTok toks p9 ["ORDER"] then
                      match expectTok toks (p9 + 1) "BY" with
                      | .error e => .error e
                      | .ok (_, p10) =>
                        match advanceTok toks p10 with
                        | .error e => .error e
                        | .ok (c, p11) => .ok (some c, p11)
                    else .ok (none, p9)
                  match orderRes with
                  | .error e => .error e
                  | .ok (orderBy, p11) =>
                    let limitRes : Except String (Option Int × Nat) :=
                      if matchTok toks p11 ["LIMIT"] then
                        match advanceTok toks (p11 + 1) with
                        | .error e => .error e
                        | .ok (t, p12) =>
                          -- `int(self.advance())`: a non-numeric token raises
                          -- ValueError in Python (uncaught).
                          match pyIntParse t with
                          | some n => .ok (some n, p12)
                          | none =>
                            .error ("ValueError: invalid literal for int(): " ++ t)
                      else .ok (none, p11)
                    match limitRes with
                    | .error e => .error e
                    | .ok (limit, p12) =>
                      .ok (⟨columns, tableName, whereE, orderBy, limit, join,
                            groupBy, having⟩, p12)

/-- The column-definition loop of `parse_create_table`. -/
def parseColDefs : Nat → List String → Nat → List ColumnDef →
    Except String (List ColumnDef × Nat)
  | 0, _, _, _ => .error "out of fuel"
  | fuel + 1, toks, pos, acc =>
    if matchTok toks pos [")"] then .ok (acc, pos)
    else
      match advanceTok toks pos with
      | .error e => .error e
      | .ok (colName, p1) =>
        match advanceTok toks p1 with
        | .error e => .error e
        | .ok (colType, p2) =>
          let acc2 := acc ++ [ColumnDef.mk colName (pyToUpper colType)]
          if matchTok toks p2 [","] then parseColDefs fuel toks (p2 + 1) acc2
          else parseColDefs fuel toks p2 acc2

/-- `SQLParser.parse_create_table`. -/
def parseCreateTable (fuel : Nat) (toks : List String) (pos : Nat) :
    Except String (Stmt × Nat) :=
  match expectTok toks pos "CREATE" with
  | .error e => .error e
  | .ok (_, p1) =>
    match expectTok toks p1 "TABLE" with
    | .error e => .error e
    | .ok (_, p2) =>
      match advanceTok toks p2 with
      | .error e => .error e
      | .ok (tableName, p3) =>
        match expectTok toks p3 "(" with
        | .error e => .error e
        | .ok (_, p4) =>
          match parseColDefs fuel toks p4 [] with
          | .error e => .error e
          | .ok (cols, p5) =>
            match expectTok toks p5 ")" with
            | .error e => .error e
            | .ok (_, p6) => .ok (.createTable tableName cols, p6)

/-- The VALUES loop of `parse_insert`. -/
def parseInsertVals : Nat → List String → Nat → List Value →
    Except String (List Value × Nat)
  | 0, _, _, _ => .error "out of fuel"
  | fuel + 1, toks, pos, acc =>
    if matchTok toks pos [")"] then .ok (acc, pos)
    else
      match parseLiteral toks pos with
      | .error e => .error e
      | .ok (v, p1) =>
        let acc2 := acc ++ [v]
        if matchTok toks p1 [","] then parseInsertVals fuel toks (p1 + 1) acc2
        else parseInsertVals fuel toks p1 acc2

/-- `SQLParser.parse_insert`. -/
def parseInsert (fuel : Nat) (toks : List String) (pos : Nat) :
    Except String (Stmt × Nat) :=
  match expectTok toks pos "INSERT" with
  | .error e => .error e
  | .ok (_, p1) =>
    match expectTok toks p1 "INTO" with
    | .error e => .error e
    | .ok (_, p2) =>
      match advanceTok toks p2 with
      | .error e => .error e
      | .ok (tableName, p3) =>
        match expectTok toks p3 "VALUES" with
        | .error e => .error e
        | .ok (_, p4) =>
          match expectTok toks p4 "(" with
          | .error e => .error e
          | .ok (_, p5) =>
            match parseInsertVals fuel toks p5 [] with
            | .error e => .error e
            | .ok (vals, p6) =>
              match expectTok toks p6 ")" with
              | .error e => .error e
              | .ok (_, p7) => .ok (.insert tableName vals, p7)

/-- The assignment loop of `parse_update`.  Python stores the assignments in
a dict, so a repeated column keeps only its last value; the model
reproduces that with an association-list upsert. -/
def assignPut (assignments : List (String × Value)) (k : String) (v : Value) :
    List (String × Value) :=
  if assignments.any (fun a => a.1 == k) then
    assignments.map (fun a => if a.1 == k then (a.1, v) else a)
  else assignments ++ [(k, v)]

/-- The SET loop of `parse_update`. -/
def parseAssignments : Nat → List String → Nat → List (String × Value) →
    Except String (List (String × Value) × Nat)
  | 0, _, _, _ => .error "out of fuel"
  | fuel + 1, toks, pos, acc =>
    match advanceTok toks pos with
    | .error e => .error e
    | .ok (col, p1) =>
      match expectTok toks p1 "=" with
      | .error e => .error e
      | .ok (_, p2) =>
        match parseLiteral toks p2 with
        | .error e => .error e
        | .ok (v, p3) =>
          let acc2 := assignPut acc col v
          if matchTok toks p3 [","] then parseAssignments fuel toks (p3 + 1) acc2
          else .ok (acc2, p3)

/-- `SQLParser.parse_update`. -/
def parseUpdate (fuel : Nat) (toks : List String) (pos : Nat) :
    Except String (Stmt × Nat) :=
  match expectTok toks pos "UPDATE" with
  | .error e => .error e
  | .ok (_, p1) =>
    match advanceTok toks p1 with
    | .error e => .error e
    | .ok (tableName, p2) =>
      match expectTok toks p2 "SET" with
      | .error e => .error e
      | .ok (_, p3) =>
        match parseAssignments fuel toks p3 [] with
        | .error e => .error e
        | .ok (assignments, p4) =>
          if matchTok toks p4 ["WHERE"] then
            match parseExpression fuel toks (p4 + 1) with
            | .error e => .error e
            | .ok (w, p5) => .ok (.update tableName assignments (some w), p5)
          else .ok (.update tableName assignments none, p4)

/-- `SQLParser.parse_delete`. -/
def parseDelete (fuel : Nat) (toks : List String) (pos : Nat) :
    Except String (Stmt × Nat) :=
  match expectTok toks pos "DELETE" with
  | .error e => .error e
  | .ok (_, p1) =>
    match expectTok toks p1 "FROM" with
    | .error e => .error e
    | .ok (_, p2) =>
      match advanceTok toks p2 with
      | .error e => .error e
      | .ok (tableName, p3) =>
        if matchTok toks p3 ["WHERE"] then
          match parseExpression fuel toks (p3 + 1) with
          | .error e => .error e
          | .ok (w, p4) => .ok (.delete tableName (some w), p4)
        else .ok (.delete tableName none, p3)

/-- `SQLParser.parse_drop_table`. -/
def parseDropTable (toks : List String) (pos : Nat) : Except String (Stmt × Nat) :=
  match expectTok toks pos "DROP" with
  | .error e => .error e
  | .ok (_, p1) =>
    match expectTok toks p1 "TABLE" with
    | .error e => .error e
    | .ok (_, p2) =>
      match advanceTok toks p2 with
      | .error e => .error e
      | .ok (tableName, p3) => .ok (.dropTable tableName, p3)

/-- `SQLParser.parse_drop_index`. -/
def parseDropIndex (toks : List String) (pos : Nat) : Except String (Stmt × Nat) :=
  match expectTok toks pos "DROP" with
  | .error e => .error e
  | .ok (_, p1) =>
    match expectTok toks p1 "INDEX" with
    | .error e => .error e
    | .ok (_, p2) =>
      match advanceTok toks p2 with
      | .error e => .error e
      | .ok (indexName, p3) => .ok (.dropIndex indexName, p3)

/-- `SQLParser.parse_create_index`. -/
def parseCreateIndex (toks : List String) (pos : Nat) : Except String (Stmt × Nat) :=
  match expectTok toks pos "CREATE" with
  | .error e => .error e
  | .ok (_, p1) =>
    match expectTok toks p1 "INDEX" with
    | .error e => .error e
    | .ok (_, p2) =>
      match advanceTok toks p2 with
      | .error e => .error e
      | .ok (indexName, p3) =>
        match expectTok toks p3 "ON" with
        | .error e => .error e
        | .ok (_, p4) =>
          match advanceTok toks p4 with
          | .error e => .error e
          | .ok (tableName, p5) =>
            match expectTok toks p5 "(" with
            | .error e => .error e
            | .ok (_, p6) =>
              match advanceTok toks p6 with
              | .error e => .error e
              | .ok (columnName, p7) =>
                match expectTok toks p7 ")" with
                | .error e => .error e
                | .ok (_, p8) => .ok (.createIndex indexName tableName columnName, p8)

/-- `SQLParser.parse_alter_table`. -/
def parseAlterTable (toks : List String) (pos : Nat) : Except String (Stmt × Nat) :=
  match expectTok toks pos "ALTER" with
  | .error e => .error e
  | .ok (_, p1) =>
    match expectTok toks p1 "TABLE" with
    | .error e => .error e
    | .ok (_, p2) =>
      match advanceTok toks p2 with
      | .error e => .error e
      | .ok (tableName, p3) =>
        match expectTok toks p3 "ADD" with
        | .error e => .error e
        | .ok (_, p4) =>
          match expectTok toks p4 "COLUMN" with
          | .error e => .error e
          | .ok (_, p5) =>
            match advanceTok toks p5 with
            | .error e => .error e
            | .ok (colName, p6) =>
              match advanceTok toks p6 with
              | .error e => .error e
              | .ok (colType, p7) =>
                .ok (.alterTable tableName "ADD_COLUMN"
                      (ColumnDef.mk colName (pyToUpper colType)), p7)

/-- `SQLParser.parse`: dispatch on the leading keyword.  Trailing tokens
after a complete statement are not examined (the source never checks that
the position reached the end of the token list). -/
def parseStmt : Nat → List String → Nat → Except String (Stmt × Nat)
  | 0, _, _ => .error "out of fuel"
  | fuel + 1, toks, pos =>
    if toks.isEmpty then .error "Empty SQL statement"
    else
      match currentTok toks pos with
      | none =>
        -- `self.current().upper()` on None: AttributeError in Python.
        .error "AttributeError: 'NoneType' object has no attribute 'upper'"
      | some kw0 =>
        let keyword := (pyToUpper kw0)
        if keyword = "EXPLAIN" then
          match parseStmt fuel toks (pos + 1) with
          | .error e => .error e
          | .ok (inner, p1) => .ok (.explain inner, p1)
        else if keyword = "CREATE" then
          match currentTok toks (pos + 1) with
          | some nk =>
            if (pyToUpper nk) = "TABLE" then parseCreateTable fuel toks pos
            else if (pyToUpper nk) = "INDEX" then parseCreateIndex toks pos
            else .error "Expected TABLE or INDEX after CREATE"
          | none => .error "Expected TABLE or INDEX after CREATE"
        else if keyword = "DROP" then
          match currentTok toks (pos + 1) with
          | some nk =>
            if (pyToUpper nk) = "TABLE" then parseDropTable toks pos
            else if (pyToUpper nk) = "INDEX" then parseDropIndex toks pos
            else .error "Expected TABLE or INDEX after DROP"
          | none => .error "Expected TABLE or INDEX after DROP"
        else if keyword = "ALTER" then parseAlterTable toks pos
        else if keyword = "INSERT" then parseInsert fuel toks pos
        else if keyword = "SELECT" then
          match parseSelect fuel toks pos with
          | .error e => .error e
          | .ok (sel, p1) => .ok (.select sel, p1)
        else if keyword = "UPDATE" then parseUpdate fuel toks pos
        else if keyword = "DELETE" then parseDelete fuel toks pos
        else .error ("Unsupported statement: " ++ keyword)

/-- `parse_sql`: tokenize, parse one statement, ignore the final position
(and with it any trailing tokens). -/
def parseSQL (sql : String) : Except String Stmt :=
  let toks := tokenizeSQL sql
  match parseStmt (toks.length + 1) toks 0 with
  | .error e => .error e
  | .ok (stmt, _) => .ok stmt

/-! ## Catalog (catalog.py)

Metadata stored in the engine under reserved key bases.  All raises in
catalog.py happen before any write, so catalog operations return
`Except String Store` with the untouched input store implicit on error. -/

/-- `__catalog__tables:{name}`. -/
def tablesKeyOf (t : String) : String := "__catalog__tables:" ++ t

/-- `__catalog__columns:{table}:{column}`. -/
def colKeyOf (t c : String) : String := "__catalog__columns:" ++ t ++ ":" ++ c

/-- `__catalog__stats:{table}`. -/
def statsKeyOf (t : String) : String := "__catalog__stats:" ++ t

/-- `__catalog__indexes:{index_name}`. -/
def indexKeyOf (i : String) : String := "__catalog__indexes:" ++ i

/-- `Catalog.table_exists`: range-scan `[key, key + "~"]` and look for the
exact key with a value other than `DELETED`. -/
def tableExistsB (s : Store) (t : String) : Bool :=
  (rangeScan s (tablesKeyOf t) (tablesKeyOf t ++ "~")).any
    (fun kv => kv.1 == tablesKeyOf t && kv.2 != "DELETED")

/-- `Catalog.create_table`: register the table row and one row per column,
`type={type},ordinal={i}`. -/
def createTable (s : Store) (t : String) (cols : List ColumnDef) : Except String Store :=
  if tableExistsB s t then .error ("Table '" ++ t ++ "' already exists")
  else
    let s1 := storePut s (tablesKeyOf t) ("columns=" ++ natRepr cols.length)
    .ok (cols.enum.foldl
      (fun st ic =>
        storePut st (colKeyOf t ic.2.name)
          ("type=" ++ ic.2.type ++ ",ordinal=" ++ natRepr ic.1))
      s1)

/-- The `k, v = part.split("=")` metadata parse: the value of field `k` in a
`k1=v1,k2=v2` string (first occurrence; parts that do not split into
exactly two pieces would raise in Python and never occur here). -/
def metaLookup (value : String) (k : String) : String :=
  match (splitChar ',' value).filterMap
      (fun part =>
        match splitChar '=' part with
        | [a, b] => if a = k then some b else none
        | _ => none) with
  | v :: _ => v
  | [] => ""

/-- `Catalog.get_columns`: scan the column rows, skip `DELETED`, parse
`type`/`ordinal`, take the column name from the last `:`-segment of the
key, and stably sort by ordinal. -/
def getColumns (s : Store) (t : String) : Except String (List ColumnDef) :=
  if !(tableExistsB s t) then .error ("Table '" ++ t ++ "' does not exist")
  else
    let results := rangeScan s ("__catalog__columns:" ++ t ++ ":")
      ("__catalog__columns:" ++ t ++ ":~")
    let cols : List (Int × ColumnDef) := results.filterMap
      (fun kv =>
        if kv.2 = "DELETED" then none
        else
          some ((pyIntParse (metaLookup kv.2 "ordinal")).getD 0,
            ColumnDef.mk ((splitChar ':' kv.1).getLastD "") (metaLookup kv.2 "type")))
    .ok ((sortStable (fun a b => decide (a.1 < b.1)) cols).map (fun x => x.2))

/-- `Catalog.get_tables`: scan the table rows, skip `DELETED`, strip the key
base, and sort ascending. -/
def getTables (s : Store) : List String :=
  let results := rangeScan s "__catalog__tables:" ("__catalog__tables:" ++ "~")
  let tables := results.filterMap
    (fun kv =>
      if kv.2 = "DELETED" then none
      else some (String.mk (kv.1.data.drop "__catalog__tables:".length)))
  sortStable strLtB tables

/-- `Catalog.drop_table`: mark every live column row `DELETED`, then mark
the table row `DELETED`. -/
def dropTable (s : Store) (t : String) : Except String Store :=
  if !(tableExistsB s t) then .error ("Table '" ++ t ++ "' does not exist")
  else
    let results := rangeScan s ("__catalog__columns:" ++ t ++ ":")
      ("__catalog__columns:" ++ t ++ ":~")
    let s1 := results.foldl
      (fun st kv => if kv.2 != "DELETED" then storePut st kv.1 "DELETED" else st) s
    .ok (storePut s1 (tablesKeyOf t) "DELETED")

/-- `Catalog.add_column`. -/
def addColumn (s : Store) (t : String) (col : ColumnDef) : Except String Store :=
  match getColumns s t with
  | .error e => .error e
  | .ok current =>
    let nextOrdinal := current.length
    let s1 := storePut s (colKeyOf t col.name)
      ("type=" ++ col.type ++ ",ordinal=" ++ natRepr nextOrdinal)
    .ok (storePut s1 (tablesKeyOf t) ("columns=" ++ natRepr (nextOrdinal + 1)))

/-- `Catalog.update_stats`. -/
def updateStats (s : Store) (t : String) (rowCount : Int) : Store :=
  storePut s (statsKeyOf t) ("rows=" ++ intRepr rowCount)

/-- `Catalog.get_stats`, restricted to the `rows` field, the only one ever
written or read.  A missing stats row reads as 0; so would a non-digit
`rows` value (in Python the row count would then be the raw string, and
any later arithmetic on it would raise — never the case here, since every
written count is a non-negative decimal). -/
def getStatsRows (s : Store) (t : String) : Int :=
  match storeGet s (statsKeyOf t) with
  | none => 0
  | some v =>
    let raw := metaLookup v "rows"
    if !raw.isEmpty && raw.data.all Char.isDigit then (pyIntParse raw).getD 0 else 0

/-- `Catalog.create_index`. -/
def createIndex (s : Store) (indexName t columnName : String) : Except String Store :=
  if !(tableExistsB s t) then .error ("Table '" ++ t ++ "' does not exist")
  else
    match getColumns s t with
    | .error e => .error e
    | .ok cols =>
      if !(cols.any (fun c => c.name == columnName)) then
        .error ("Column '" ++ columnName ++ "' does not exist in table '" ++ t ++ "'")
      else
        .ok (storePut s (indexKeyOf indexName)
          ("table=" ++ t ++ ",column=" ++ columnName))

/-- `Catalog.drop_index`. -/
def dropIndex (s : Store) (indexName : String) : Except String Store :=
  match storeGet s (indexKeyOf indexName) with
  | none => .error ("Index '" ++ indexName ++ "' does not exist")
  | some _ => .ok (storePut s (indexKeyOf indexName) "DELETED")

/-! ## Rows and expression evaluation (executor.py helpers)

Python row dictionaries become association lists that keep insertion order
and collapse duplicate keys exactly as `dict` does; the executor's join
path stores the set of ambiguous unqualified names under the reserved
`__ambiguous_cols__` key, modelled as a separate field. -/

/-- A row dictionary plus the `__ambiguous_cols__` set. -/
structure Row where
  fields : List (String × Value)
  ambiguous : List String
deriving DecidableEq, Repr

/-- `row.get(k)` (default `None`). -/
def rowGet (r : Row) (k : String) : Value :=
  match r.fields.find? (fun kv => kv.1 == k) with
  | some kv => kv.2
  | none => .vNull

/-- `k in row`. -/
def rowHas (r : Row) (k : String) : Bool := r.fields.any (fun kv => kv.1 == k)

/-- `row[k] = v` on a dict: overwrite in place or append. -/
def fieldsUpsert (fs : List (String × Value)) (k : String) (v : Value) :
    List (String × Value) :=
  if fs.any (fun kv => kv.1 == k) then
    fs.map (fun kv => if kv.1 == k then (kv.1, v) else kv)
  else fs ++ [(k, v)]

/-- `Executor._cast_value`: cast per declared type, fall back to the raw
string when the cast fails. -/
def castValue (v : String) (ty : String) : Value :=
  if ty = "INT" then
    match pyIntParse v with
    | some i => .vInt i
    | none => .vStr v
  else if ty = "FLOAT" then
    match pyFloatParse v with
    | some q => .vFloat q
    | none => .vStr v
  else .vStr v

/-- `Executor._resolve_column_value`.  A qualified name is looked up
directly; an unqualified one is checked against the ambiguous set when
`strict` is on.  (When `strict` is off this never fails.) -/
def resolveColumnValue (r : Row) (column : String) (strict : Bool) :
    Except String Value :=
  if column.data.contains '.' then .ok (rowGet r column)
  else if strict && r.ambiguous.contains column then
    .error ("Ambiguous column reference: " ++ column)
  else .ok (rowGet r column)

/-- The numeric-coercion step of `_evaluate_expr`: a string whose characters
minus `.` and `-` are all digits is converted (the conversion itself is
wrapped in `try/except pass`, so a failed conversion keeps the string). -/
def coerceNumericStr (v : Value) : Value :=
  match v with
  | .vStr s =>
    let stripped := s.data.filter (fun c => !(c == '.') && !(c == '-'))
    if !stripped.isEmpty && stripped.all Char.isDigit then
      if s.data.contains '.' then
        match pyFloatParse s with
        | some q => .vFloat q
        | none => .vStr s
      else
        match pyIntParse s with
        | some i => .vInt i
        | none => .vStr s
    else .vStr s
  | v => v

/-- Python `<` as an operation that can raise `TypeError` (used by the
comparison branches of `_evaluate_expr`, which are not wrapped in a try). -/
def pyLtE (a b : Value) : Except String Value :=
  match a, b with
  | .vStr x, .vStr y => .ok (.vBool (strLtB x y))
  | a, b =>
    match valueToRat a, valueToRat b with
    | some x, some y => .ok (.vBool (decide (x < y)))
    | _, _ => .error "TypeError: unorderable types in comparison"

/-- Python `<=` with the same error behaviour. -/
def pyLeE (a b : Value) : Except String Value :=
  match a, b with
  | .vStr x, .vStr y => .ok (.vBool (strLeB x y))
  | a, b =>
    match valueToRat a, valueToRat b with
    | some x, some y => .ok (.vBool (decide (x ≤ y)))
    | _, _ => .error "TypeError: unorderable types in comparison"

/-! `Executor._evaluate_expr` and `Executor._get_expr_value` (mutual).
Both operands of a binary node are evaluated before dispatch (the source
computes `left` and `right` first, so there is no short-circuit), then the
numeric coercion is applied and the operator dispatched on `op.upper()`. -/
mutual

/-- `Executor._evaluate_expr`. -/
def evaluateExpr (r : Row) : Expr → Except String Value
  | .bin l op rg => do
    let left0 ← getExprValue r l
    let right0 ← getExprValue r rg
    let left := coerceNumericStr left0
    let right := coerceNumericStr right0
    let opU := (pyToUpper op)
    if opU = "=" then pure (.vBool (pyEqB left right))
    else if opU = ">" then pyLtE right left
    else if opU = "<" then pyLtE left right
    else if opU = ">=" then pyLeE right left
    else if opU = "<=" then pyLeE left right
    else if opU = "!=" then pure (.vBool (!(pyEqB left right)))
    else if opU = "AND" then pure (if truthy left then right else left)
    else if opU = "OR" then pure (if truthy left then left else right)
    else .error ("Unknown operator: " ++ opU)
  | .col name => resolveColumnValue r name true
  | .lit v => pure v

/-- `Executor._get_expr_value`. -/
def getExprValue (r : Row) : Expr → Except String Value
  | .col name => resolveColumnValue r name true
  | .lit v => pure v
  | .bin l op rg => evaluateExpr r (.bin l op rg)

end

/-! ## Aggregates (aggregates.py) -/

/-- First index of `ch` in `l`, or `l.length` if absent. -/
def firstIdxOf (ch : Char) (l : List Char) : Nat := l.findIdx (fun c => c == ch)

/-- Last index of `ch` in `l` (`str.rindex`; callers guarantee presence). -/
def lastIdxOf (ch : Char) (l : List Char) : Nat :=
  l.length - 1 - l.reverse.findIdx (fun c => c == ch)

/-- `parse_aggregate_function`: `"SUM(amount)" ↦ (some "SUM", "amount")`,
`"name" ↦ (none, "name")`.  The argument is the slice between the first
`(` and the last `)`, stripped. -/
def parseAggFn (colExpr0 : String) : Option String × String :=
  let colExpr := pyStrip colExpr0
  match ["COUNT", "SUM", "AVG", "MIN", "MAX"].find?
      (fun f => pyStartsWith (pyToUpper colExpr) (f ++ "(")) with
  | some f =>
    let cs := colExpr.data
    let i := firstIdxOf '(' cs + 1
    let j := lastIdxOf ')' cs
    (some f, pyStrip (String.mk ((cs.drop i).take (j - i))))
  | none => (none, colExpr)

/-- The group key of a row: the tuple of its group-by column values. -/
def groupKeyOf (gcols : List String) (r : Row) : List Value :=
  gcols.map (fun c => rowGet r c)

/-- `group_rows`: partition rows by group key, in first-appearance order
(Python dicts preserve insertion order). -/
def groupRows (rows : List Row) (gcols : List String) :
    List (List Value × List Row) :=
  rows.foldl
    (fun acc r =>
      let k := groupKeyOf gcols r
      if acc.any (fun g => g.1 == k) then
        acc.map (fun g => if g.1 == k then (g.1, g.2 ++ [r]) else g)
      else acc ++ [(k, [r])])
    []

/-- The string-to-number conversion inside `compute_aggregate`.  (Python
would raise `ValueError` on shapes like `"1-2"` that pass the digit test
but fail the conversion; the model keeps such strings unchanged — no
verified statement depends on them.) -/
def aggNumConvert (v : Value) : Value :=
  match v with
  | .vStr s =>
    let stripped := s.data.filter (fun c => !(c == '.') && !(c == '-'))
    if !stripped.isEmpty && stripped.all Char.isDigit then
      if s.data.contains '.' then
        match pyFloatParse s with
        | some q => .vFloat q
        | none => .vStr s
      else
        match pyIntParse s with
        | some i => .vInt i
        | none => .vStr s
    else .vStr s
  | v => v

/-- The `values` list of `compute_aggregate`: the non-`None` values of the
column across the group, numeric strings converted. -/
def aggValues (column : String) (rows : List Row) : List Value :=
  rows.filterMap
    (fun r =>
      match rowGet r column with
      | .vNull => none
      | v => some (aggNumConvert v))

/-- Python `+` on the (numeric) values reached by `sum`: int + int stays
int, anything else goes through the rational view.  (Non-numeric operands
would raise `TypeError` in Python; the model returns `None` there, and no
verified statement reaches that case.) -/
def addValues (a b : Value) : Value :=
  match a, b with
  | .vInt x, .vInt y => .vInt (x + y)
  | a, b =>
    match valueToRat a, valueToRat b with
    | some x, some y => .vFloat (x + y)
    | _, _ => .vNull

/-- `compute_aggregate`. -/
def computeAggregate (funcName column : String) (rows : List Row) : Value :=
  if funcName = "COUNT" then
    if column = "*" then .vInt rows.length
    else .vInt ((rows.filter (fun r => !(rowGet r column == .vNull))).length)
  else
    let values := aggValues column rows
    match values with
    | [] => .vNull
    | v0 :: vrest =>
      if funcName = "SUM" then values.foldl addValues (.vInt 0)
      else if funcName = "AVG" then
        match valueToRat (values.foldl addValues (.vInt 0)) with
        | some q => .vFloat (q / (values.length : Rat))
        | none => .vNull
      else if funcName = "MIN" then
        vrest.foldl (fun m x => if valueLtB x m then x else m) v0
      else if funcName = "MAX" then
        vrest.foldl (fun m x => if valueLtB m x then x else m) v0
      else .vNull

/-- `apply_aggregates`: project each select column, grouping when GROUP BY
is present (first-appearance order) and otherwise treating the whole input
as one group whenever an aggregate occurs. -/
def applyAggregates (rows : List Row) (selectColumns : List String)
    (groupByCols : Option (List String)) : List (List Value) :=
  let colInfo := selectColumns.map (fun ce => (ce, parseAggFn ce))
  let hasAggs := colInfo.any (fun ci => ci.2.1.isSome)
  let gbTruthy : Bool :=
    match groupByCols with
    | some (_ :: _) => true
    | _ => false
  if !hasAggs && !gbTruthy then
    rows.map (fun r => colInfo.map (fun ci => rowGet r ci.2.2))
  else
    let groups : List (List Value × List Row) :=
      match groupByCols with
      | some (g0 :: grest) => groupRows rows (g0 :: grest)
      | _ => [([], rows)]
    groups.map
      (fun g =>
        colInfo.map
          (fun ci =>
            match ci.2.1 with
            | some f => computeAggregate f ci.2.2 g.2
            | none =>
              match g.2 with
              | r :: _ => rowGet r ci.2.2
              | [] => .vNull))

/-! ## Executor (executor.py)

Stateful operations thread the store explicitly; an error carries the store
as it was when the Python exception would have been raised. -/

/-- `Executor._has_aggregates`: substring test on the upper-cased column
expressions. -/
def containsSub (pat : List Char) (l : List Char) : Bool :=
  match l with
  | [] => pat.isEmpty
  | _ :: rest => l.take pat.length == pat || containsSub pat rest

/-- `Executor._has_aggregates`. -/
def hasAggregates (columns : List String) : Bool :=
  columns.any
    (fun col =>
      ["COUNT(", "SUM(", "AVG(", "MIN(", "MAX("].any
        (fun f => containsSub f.data (pyToUpper col).data))

/-- Python `"|".join(parts)`. -/
def joinPipe : List String → String
  | [] => ""
  | [x] => x
  | x :: y :: rest => x ++ "|" ++ joinPipe (y :: rest)

/-- `"|".join(str(v) ...)`: row serialization used by INSERT. -/
def serializeValues (vals : List Value) : String :=
  joinPipe (vals.map pyStr)

/-- Zero-pad to 20 characters (`f"{row_id:020d}"`). -/
def padZeros (w : Nat) (s : String) : String :=
  String.mk (List.replicate (w - s.length) '0') ++ s

/-- The row key `{table}:{row_id:020d}`. -/
def rowKeyOf (t : String) (rowId : Nat) : String :=
  t ++ ":" ++ padZeros 20 (natRepr rowId)

/-- The row dictionary built by `execute_select`: every schema column gets
an entry, missing trailing values become `None`. -/
def rowFromValueSelect (columns : List ColumnDef) (value : String) : Row :=
  let values := splitChar '|' value
  let fs := columns.enum.foldl
    (fun fs ic =>
      match values.get? ic.1 with
      | some v => fieldsUpsert fs ic.2.name (castValue v ic.2.type)
      | none => fieldsUpsert fs ic.2.name .vNull)
    []
  ⟨fs, []⟩

/-- The row dictionary built by `execute_update` / `execute_delete`: only
the columns whose serialized value is present get an entry (no `else`
branch in the source), so a short value string leaves trailing columns
absent rather than `None`. -/
def rowFromValueUpdate (columns : List ColumnDef) (value : String) : Row :=
  let values := splitChar '|' value
  let fs := columns.enum.foldl
    (fun fs ic =>
      match values.get? ic.1 with
      | some v => fieldsUpsert fs ic.2.name (castValue v ic.2.type)
      | none => fs)
    []
  ⟨fs, []⟩

/-- `Executor.execute_insert`: arity check against the catalog, then write
the serialized row under a fresh row key and bump the stats row count.
The row id comes from a clock in the source; it is a parameter here. -/
def executeInsert (s : Store) (rowId : Nat) (t : String) (values : List Value) :
    Except (String × Store) Store :=
  match getColumns s t with
  | .error e => .error (e, s)
  | .ok columns =>
    if values.length ≠ columns.length then
      .error ("Column count mismatch: expected " ++ natRepr columns.length ++
        ", got " ++ natRepr values.length, s)
    else
      let s1 := storePut s (rowKeyOf t rowId) (serializeValues values)
      let current := getStatsRows s1 t
      .ok (updateStats s1 t (current + 1))

/-- The WHERE filter of `execute_select` (left to right; the first raise
aborts). -/
def filterWhere (e : Expr) : List Row → Except String (List Row)
  | [] => .ok []
  | r :: rest =>
    match evaluateExpr r e with
    | .error err => .error err
    | .ok v =>
      match filterWhere e rest with
      | .error err => .error err
      | .ok tail => .ok (if truthy v then r :: tail else tail)

/-- The strict projection of `execute_select` for an explicit column list. -/
def projectRow (r : Row) : List String → Except String (List Value)
  | [] => .ok []
  | c :: rest =>
    match resolveColumnValue r c true with
    | .error err => .error err
    | .ok v =>
      match projectRow r rest with
      | .error err => .error err
      | .ok tail => .ok (v :: tail)

/-- Mapping `projectRow` over the rows, first raise aborts. -/
def projectRows (cols : List String) : List Row → Except String (List (List Value))
  | [] => .ok []
  | r :: rest =>
    match projectRow r cols with
    | .error err => .error err
    | .ok tup =>
      match projectRows cols rest with
      | .error err => .error err
      | .ok tail => .ok (tup :: tail)

/-- The LIMIT step of `execute_select`: the source guards it with
`if stmt.limit:`, so `LIMIT 0` (and no LIMIT) leave the rows untouched. -/
def applyLimit (limit : Option Int) (l : List α) : List α :=
  match limit with
  | some n => if n ≠ 0 then l.take n.toNat else l
  | none => l

/-- The row-materialization loop of `execute_select`: pairs whose value is
the tombstone `DELETED` and keys beginning with `__` are skipped. -/
def selectParseRows (columns : List ColumnDef) (kvs : List (String × String)) : List Row :=
  kvs.filterMap
    (fun kv =>
      if kv.2 = "DELETED" || pyStartsWith kv.1 "__" then none
      else some (rowFromValueSelect columns kv.2))

/-- `Executor.execute_select`.  The join branch reproduces the source's
`stmt.table_alias` attribute access, which raises `AttributeError`
because `SelectStmt` declares no such field (ast_nodes.py). -/
def executeSelect (s : Store) (stmt : SelectStmt) :
    Except (String × Store) (List (List Value) × Store) :=
  match getColumns s stmt.tableName with
  | .error e => .error (e, s)
  | .ok columns =>
    let kvs := rangeScan s (stmt.tableName ++ ":") (stmt.tableName ++ ":~")
    let rows := selectParseRows columns kvs
    match stmt.join with
    | some _ =>
      .error ("AttributeError: 'SelectStmt' object has no attribute 'table_alias'", s)
    | none =>
      let filteredRes : Except String (List Row) :=
        match stmt.whereE with
        | some e => filterWhere e rows
        | none => .ok rows
      match filteredRes with
      | .error e => .error (e, s)
      | .ok rows1 =>
        if stmt.groupBy.isSome || hasAggregates stmt.columns then
          .ok (applyAggregates rows1 stmt.columns stmt.groupBy, s)
        else
          let rows2 :=
            match stmt.orderBy with
            | some c =>
              sortStable (fun r1 r2 => valueLtB (rowGet r1 c) (rowGet r2 c)) rows1
            | none => rows1
          let rows3 := applyLimit stmt.limit rows2
          if stmt.columns = ["*"] then
            .ok (rows3.map (fun r => columns.map (fun c => rowGet r c.name)), s)
          else
            match projectRows stmt.columns rows3 with
            | .error e => .error (e, s)
            | .ok result => .ok (result, s)

/-- The re-serialization step of `execute_update`:
`"|".join(str(row.get(col.name, "")) for col in columns)` — an absent
column contributes the empty string, a present one `str` of its value. -/
def serializeUpdateRow (columns : List ColumnDef) (row : Row) : String :=
  joinPipe (columns.map
    (fun c =>
      match row.fields.find? (fun kv => kv.1 == c.name) with
      | some kv => pyStr kv.2
      | none => ""))

/-- The per-row body of `execute_update`: parse, test WHERE, apply the
assignment dict to the columns present in the row, re-serialize
(`str(row.get(col.name, ""))` per schema column) and overwrite the key.
No tombstone or catalog-key filtering happens here. -/
def updateGo (columns : List ColumnDef) (assignments : List (String × Value))
    (whereE : Option Expr) : List (String × String) → Store →
    Except (String × Store) Store
  | [], st => .ok st
  | (key, value) :: rest, st =>
    let row := rowFromValueUpdate columns value
    let condRes : Except String Bool :=
      match whereE with
      | none => .ok true
      | some e =>
        match evaluateExpr row e with
        | .error err => .error err
        | .ok v => .ok (truthy v)
    match condRes with
    | .error err => .error (err, st)
    | .ok cond =>
      if cond then
        let row2 := assignments.foldl
          (fun rr a =>
            if rowHas rr a.1 then ⟨fieldsUpsert rr.fields a.1 a.2, rr.ambiguous⟩ else rr)
          row
        updateGo columns assignments whereE rest
          (storePut st key (serializeUpdateRow columns row2))
      else updateGo columns assignments whereE rest st

/-- `Executor.execute_update`. -/
def executeUpdate (s : Store) (t : String) (assignments : List (String × Value))
    (whereE : Option Expr) : Except (String × Store) Store :=
  match getColumns s t with
  | .error e => .error (e, s)
  | .ok columns =>
    let allRows := rangeScan s (t ++ ":") (t ++ ":~")
    updateGo columns assignments whereE allRows s

/-- The key-collection pass of `execute_delete` (no writes yet). -/
def collectDeleteKeys (columns : List ColumnDef) (whereE : Option Expr) :
    List (String × String) → Except String (List String)
  | [] => .ok []
  | (key, value) :: rest =>
    let row := rowFromValueUpdate columns value
    let condRes : Except String Bool :=
      match whereE with
      | none => .ok true
      | some e =>
        match evaluateExpr row e with
        | .error err => .error err
        | .ok v => .ok (truthy v)
    match condRes with
    | .error err => .error err
    | .ok cond =>
      match collectDeleteKeys columns whereE rest with
      | .error err => .error err
      | .ok tail => .ok (if cond then key :: tail else tail)

/-- `Executor.execute_delete`: overwrite each matching row with the
tombstone value `DELETED` and decrement the stats row count (floored
at 0). -/
def executeDelete (s : Store) (t : String) (whereE : Option Expr) :
    Except (String × Store) Store :=
  match getColumns s t with
  | .error e => .error (e, s)
  | .ok columns =>
    let allRows := rangeScan s (t ++ ":") (t ++ ":~")
    match collectDeleteKeys columns whereE allRows with
    | .error err => .error (err, s)
    | .ok keys =>
      let s1 := keys.foldl (fun st k => storePut st k "DELETED") s
      let current := getStatsRows s1 t
      .ok (updateStats s1 t (max 0 (current - keys.length)))

/-- `Executor.execute`: dispatch on the AST variant.  SELECT returns rows,
everything else returns nothing.  (EXPLAIN renders the planner's tree to
text; no claim touches that façade output, so it is not reproduced.) -/
def executeStmt (s : Store) (rowId : Nat) : Stmt →
    Except (String × Store) (Option (List (List Value)) × Store)
  | .createTable t cols =>
    match createTable s t cols with
    | .error e => .error (e, s)
    | .ok s2 => .ok (none, s2)
  | .dropTable t =>
    match dropTable s t with
    | .error e => .error (e, s)
    | .ok s2 => .ok (none, s2)
  | .alterTable t action col =>
    if action = "ADD_COLUMN" then
      match addColumn s t col with
      | .error e => .error (e, s)
      | .ok s2 => .ok (none, s2)
    else .error ("Unsupported ALTER TABLE action: " ++ action, s)
  | .createIndex i t c =>
    match createIndex s i t c with
    | .error e => .error (e, s)
    | .ok s2 => .ok (none, s2)
  | .dropIndex i =>
    match dropIndex s i with
    | .error e => .error (e, s)
    | .ok s2 => .ok (none, s2)
  | .insert t vals =>
    match executeInsert s rowId t vals with
    | .error e => .error e
    | .ok s2 => .ok (none, s2)
  | .select sel =>
    match executeSelect s sel with
    | .error e => .error e
    | .ok (rows, s2) => .ok (some rows, s2)
  | .update t assignments whereE =>
    match executeUpdate s t assignments whereE with
    | .error e => .error e
    | .ok s2 => .ok (none, s2)
  | .delete t whereE =>
    match executeDelete s t whereE with
    | .error e => .error e
    | .ok s2 => .ok (none, s2)
  | .explain _ => .error ("EXPLAIN rendering not modelled", s)

/-- `SQLDatabase.execute` / `Executor.execute`: parse then dispatch.  The
row id used by INSERT comes from a clock in the source and is a parameter
here; statements other than INSERT ignore it. -/
def executeSQL (s : Store) (rowId : Nat) (sql : String) :
    Except (String × Store) (Option (List (List Value)) × Store) :=
  match parseSQL sql with
  | .error e => .error (e, s)
  | .ok stmt => executeStmt s rowId stmt

/-! ## Planner (planner.py) -/

/-- `QueryPlanner._estimate_selectivity`, with Python float literals read as
the rationals they denote (both the code and the spec use the same decimal
literals, and the two sides perform the same operations). -/
def estimateSelectivity : Expr → Rat
  | .bin l op r =>
    if op = "=" then 1 / 100
    else if op = "!=" then 99 / 100
    else if op = ">" || op = "<" || op = ">=" || op = "<=" then 33 / 100
    else if op = "AND" then estimateSelectivity l * estimateSelectivity r
    else if op = "OR" then min 1 (estimateSelectivity l + estimateSelectivity r)
    else 1 / 10
  | _ => 1 / 10

/-- The selectivity function as the spec words it (§4.8): "`=` : 0.01.
`!=` : 0.99. `<,>,<=,>=` : 0.33. `AND` : product. `OR` : min(1, sum).
Unknown: 0.10" — by structural recursion over the predicate. -/
def selectivitySpec : Expr → Rat
  | .bin _ "=" _ => 1 / 100
  | .bin _ "!=" _ => 99 / 100
  | .bin _ "<" _ => 33 / 100
  | .bin _ ">" _ => 33 / 100
  | .bin _ "<=" _ => 33 / 100
  | .bin _ ">=" _ => 33 / 100
  | .bin l "AND" r => selectivitySpec l * selectivitySpec r
  | .bin l "OR" r => min 1 (selectivitySpec l + selectivitySpec r)
  | _ => 1 / 10

/-! ## Write-ahead log and recovery

Modelled from the spec (the `_storage_engine` module is not in the source
tree): §3 "Write-Ahead Log record", §4.4 "Recovery protocol" and §4.5
"auto-commit: `insert(k, v)` … is equivalent to begin/insert/commit". -/

/-- Modelled from the spec: WAL operation codes. -/
inductive WalOp where
  | begin
  | insert
  | del
  | commit
  | abort
  | checkpoint
deriving DecidableEq, Repr

/-- Modelled from the spec: one WAL record `(LSN, txn_id, op, payload)`. -/
structure WalRecord where
  lsn : Nat
  txn : Nat
  op : WalOp
  key : String
  value : String
deriving DecidableEq, Repr

/-- Modelled from the spec: the log written by a sequence of auto-commit
inserts — for each pair a begin record, the insert, and a fsynced commit,
with fresh monotone LSNs and transaction ids. -/
def autoCommitWal : Nat → Nat → List (String × String) → List WalRecord
  | _, _, [] => []
  | lsn, txn, (k, v) :: rest =>
    ⟨lsn, txn, .begin, "", ""⟩ ::
    ⟨lsn + 1, txn, .insert, k, v⟩ ::
    ⟨lsn + 2, txn, .commit, "", ""⟩ ::
    autoCommitWal (lsn + 3) (txn + 1) rest

/-- Modelled from the spec: delete applies a tombstone, after which the key
reads as absent. -/
def storeDel (s : Store) (k : String) : Store :=
  s.filter (fun kv => kv.1 != k)

/-- Modelled from the spec: recovery step 1 — the set of committed
transaction ids found in the log. -/
def committedSet (wal : List WalRecord) : List Nat :=
  (wal.filter (fun r => r.op == WalOp.commit)).map (fun r => r.txn)

/-- Recovery step 2, factored over an explicit committed set: re-apply
every mutation of a committed transaction, in log (= LSN) order. -/
def walApply (committed : List Nat) (wal : List WalRecord) (disk : Store) : Store :=
  wal.foldl
    (fun st r =>
      if r.op == WalOp.insert && committed.contains r.txn then storePut st r.key r.value
      else if r.op == WalOp.del && committed.contains r.txn then storeDel st r.key
      else st)
    disk

/-- Modelled from the spec: the recovery protocol of §4.4 applied to the
surviving on-disk B-tree image. -/
def recoverWal (wal : List WalRecord) (disk : Store) : Store :=
  walApply (committedSet wal) wal disk

/-- The last value committed for `k` by the sequence `S` of inserts: the
value of the last pair in `S` whose key is `k`. -/
def lastWrite (S : List (String × String)) (k : String) : Option String :=
  match S.reverse.find? (fun kv => kv.1 == k) with
  | some kv => some kv.2
  | none => none

/-! ## Concrete states for the §8 scenarios

Built by running the model's own CREATE TABLE / INSERT functions from an
empty store.  Row ids (time-derived in the source) are taken as 1, 2, 3, …
per table; only their uniqueness and monotonicity matter. -/

/-- Unwrap an `Except` whose success is established by later `rfl`-checked
facts about the resulting store (every step below succeeds). -/
def unwrapStore (e : Except String Store) : Store :=
  match e with
  | .ok s => s
  | .error _ => []

/-- Unwrap the store of an executor step. -/
def unwrapStep (e : Except (String × Store) Store) : Store :=
  match e with
  | .ok s => s
  | .error _ => []

/-- Scenario 6 state: `users(id INT, name TEXT)` with (1,'Alice'),(2,'Bob')
and `orders(id INT, user_id INT, product TEXT)` with (1,1,'Laptop'),
(2,1,'Mouse'),(3,2,'Keyboard'). -/
def joinState : Store :=
  let s1 := unwrapStore (createTable [] "users"
    [⟨"id", "INT"⟩, ⟨"name", "TEXT"⟩])
  let s2 := unwrapStore (createTable s1 "orders"
    [⟨"id", "INT"⟩, ⟨"user_id", "INT"⟩, ⟨"product", "TEXT"⟩])
  let s3 := unwrapStep (executeInsert s2 1 "users" [.vInt 1, .vStr "Alice"])
  let s4 := unwrapStep (executeInsert s3 2 "users" [.vInt 2, .vStr "Bob"])
  let s5 := unwrapStep (executeInsert s4 1 "orders" [.vInt 1, .vInt 1, .vStr "Laptop"])
  let s6 := unwrapStep (executeInsert s5 2 "orders" [.vInt 2, .vInt 1, .vStr "Mouse"])
  unwrapStep (executeInsert s6 3 "orders" [.vInt 3, .vInt 2, .vStr "Keyboard"])

/-- Scenario 4 state: `users(id INT, name TEXT, age INT)` with
(1,'Alice',30),(2,'Bob',25),(3,'Charlie',35),(4,'David',28). -/
def usersAgeState : Store :=
  let s1 := unwrapStore (createTable [] "users"
    [⟨"id", "INT"⟩, ⟨"name", "TEXT"⟩, ⟨"age", "INT"⟩])
  let s2 := unwrapStep (executeInsert s1 1 "users" [.vInt 1, .vStr "Alice", .vInt 30])
  let s3 := unwrapStep (executeInsert s2 2 "users" [.vInt 2, .vStr "Bob", .vInt 25])
  let s4 := unwrapStep (executeInsert s3 3 "users" [.vInt 3, .vStr "Charlie", .vInt 35])
  unwrapStep (executeInsert s4 4 "users" [.vInt 4, .vStr "David", .vInt 28])

/-- Scenario 5 state: `orders(id INT, customer TEXT, amount INT)` with
(1,'Alice',100),(2,'Bob',200),(3,'Alice',150),(4,'Charlie',300),
(5,'Bob',100). -/
def ordersState : Store :=
  let s1 := unwrapStore (createTable [] "orders"
    [⟨"id", "INT"⟩, ⟨"customer", "TEXT"⟩, ⟨"amount", "INT"⟩])
  let s2 := unwrapStep (executeInsert s1 1 "orders" [.vInt 1, .vStr "Alice", .vInt 100])
  let s3 := unwrapStep (executeInsert s2 2 "orders" [.vInt 2, .vStr "Bob", .vInt 200])
  let s4 := unwrapStep (executeInsert s3 3 "orders" [.vInt 3, .vStr "Alice", .vInt 150])
  let s5 := unwrapStep (executeInsert s4 4 "orders" [.vInt 4, .vStr "Charlie", .vInt 300])
  unwrapStep (executeInsert s5 5 "orders" [.vInt 5, .vStr "Bob", .vInt 100])

/-- Tombstone-resurrection scenario for the DELETE/UPDATE interaction:
`t(a INT, b TEXT)` with one row (1,'x'). -/
def tombBaseState : Store :=
  let s1 := unwrapStore (createTable [] "t" [⟨"a", "INT"⟩, ⟨"b", "TEXT"⟩])
  unwrapStep (executeInsert s1 1 "t" [.vInt 1, .vStr "x"])

/-- The same state after `DELETE FROM t`. -/
def tombDeletedState : Store :=
  unwrapStep (executeDelete tombBaseState "t" none)

/-- The same state after the subsequent `UPDATE t SET b = 'y'` (no WHERE). -/
def tombUpdatedState : Store :=
  unwrapStep (executeUpdate tombDeletedState "t" [("b", .vStr "y")] none)

/-! ## General lemmas about the model -/

theorem insertSorted_perm (lt : α → α → Bool) (a : α) :
    ∀ l : List α, (insertSorted lt a l).Perm (a :: l)
  | [] => by simp [insertSorted]
  | b :: l => by
    simp only [insertSorted]
    split
    · exact ((insertSorted_perm lt a l).cons b).trans (List.Perm.swap a b l)
    · exact List.Perm.refl _

theorem sortStable_perm (lt : α → α → Bool) :
    ∀ l : List α, (sortStable lt l).Perm l
  | [] => List.Perm.refl _
  | a :: l => by
    simpa [sortStable] using (insertSorted_perm lt a (sortStable lt l)).trans
      ((sortStable_perm lt l).cons a)

theorem insertSorted_filter_pos (lt : α → α → Bool) (p : α → Bool)
    (h : ∀ x y, p x = true → p y = true → lt x y = false) (a : α) (ha : p a = true) :
    ∀ l : List α, (insertSorted lt a l).filter p = a :: l.filter p
  | [] => by simp [insertSorted, ha]
  | b :: l => by
    simp only [insertSorted]
    split
    · next hlt =>
      have hpb : p b = false := by
        cases hb : p b with
        | true => exact absurd hlt (by simp [h b a hb ha])
        | false => rfl
      simp [List.filter, hpb, insertSorted_filter_pos lt p h a ha l]
    · simp [List.filter, ha]

theorem insertSorted_filter_neg (lt : α → α → Bool) (p : α → Bool) (a : α)
    (ha : p a = false) :
    ∀ l : List α, (insertSorted lt a l).filter p = l.filter p
  | [] => by simp [insertSorted, ha]
  | b :: l => by
    simp only [insertSorted]
    split
    · simp [List.filter, insertSorted_filter_neg lt p a ha l]
    · simp [List.filter, ha]

/-- Stability of `sortStable`: the subsequence of elements satisfying any
predicate that is `lt`-irreflexive on its class (for instance, "the sort
key equals `v`") is preserved. -/
theorem sortStable_filter (lt : α → α → Bool) (p : α → Bool)
    (h : ∀ x y, p x = true → p y = true → lt x y = false) :
    ∀ l : List α, (sortStable lt l).filter p = l.filter p
  | [] => rfl
  | a :: l => by
    cases ha : p a with
    | true =>
      simp only [sortStable, insertSorted_filter_pos lt p h a ha,
        sortStable_filter lt p h l, List.filter, ha]
    | false =>
      simp only [sortStable, insertSorted_filter_neg lt p a ha,
        sortStable_filter lt p h l, List.filter, ha]

theorem insertSorted_pairwise (lt : α → α → Bool)
    (asym : ∀ x y, lt x y = true → lt y x = false)
    (negtrans : ∀ x y z, lt x y = false → lt y z = false → lt x z = false)
    (a : α) : ∀ l : List α, l.Pairwise (fun x y => lt y x = false) →
    (insertSorted lt a l).Pairwise (fun x y => lt y x = false)
  | [], _ => by simp [insertSorted]
  | b :: l, hl => by
    simp only [insertSorted]
    rcases List.pairwise_cons.mp hl with ⟨hb, hl'⟩
    split
    · next hlt =>
      refine List.pairwise_cons.mpr ⟨?_, insertSorted_pairwise lt asym negtrans a l hl'⟩
      intro x hx
      rcases List.mem_cons.mp ((insertSorted_perm lt a l).mem_iff.mp hx) with hxa | hxl
      · subst hxa; exact asym b x hlt
      · exact hb x hxl
    · next hlt =>
      have hba : lt b a = false := by
        cases hlt' : lt b a with
        | true => exact absurd hlt' hlt
        | false => rfl
      refine List.pairwise_cons.mpr ⟨?_, hl⟩
      intro x hx
      rcases List.mem_cons.mp hx with hxb | hxl
      · simpa [hxb] using hba
      · exact negtrans x b a (hb x hxl) hba
theorem sortStable_pairwise (lt : α → α → Bool)
    (asym : ∀ x y, lt x y = true → lt y x = false)
    (negtrans : ∀ x y z, lt x y = false → lt y z = false → lt x z = false) :
    ∀ l : List α, (sortStable lt l).Pairwise (fun x y => lt y x = false)
  | [] => List.Pairwise.nil
  | a :: l => insertSorted_pairwise lt asym negtrans a (sortStable lt l)
      (sortStable_pairwise lt asym negtrans l)

theorem storeGet_put_self (k v : String) :
    ∀ s : Store, storeGet (storePut s k v) k = some v
  | [] => by simp [storePut, storeGet, List.find?]
  | (k1, v1) :: rest => by
    simp only [storePut]
    split
    · simp [storeGet, List.find?]
    · split
      · simp [storeGet, List.find?]
      · next hne =>
        have : (k1 == k) = false := by
          simp only [beq_eq_false_iff_ne, ne_eq]
          intro h; exact hne h.symm
        simpa [storeGet, List.find?, this] using storeGet_put_self k v rest

theorem storeGet_put_other (k v k2 : String) (h : k2 ≠ k) :
    ∀ s : Store, storeGet (storePut s k v) k2 = storeGet s k2
  | [] => by
    have : (k == k2) = false := by
      simp only [beq_eq_false_iff_ne, ne_eq]
      intro hh; exact h hh.symm
    simp [storePut, storeGet, List.find?, this]
  | (k1, v1) :: rest => by
    have hkk2 : (k == k2) = false := by
      simp only [beq_eq_false_iff_ne, ne_eq]
      intro hh; exact h hh.symm
    simp only [storePut]
    split
    · simp [storeGet, List.find?, hkk2]
    · split
      · next heq =>
        subst heq
        simp [storeGet, List.find?, hkk2]
      · cases hk1 : (k1 == k2) with
        | true => simp [storeGet, List.find?, hk1]
        | false => simpa [storeGet, List.find?, hk1] using storeGet_put_other k v k2 h rest

/-! ### Durability (C5 infrastructure) -/

/-- Applying a sequence of inserts directly to the store. -/
def applyAll (S : List (String × String)) (disk : Store) : Store :=
  S.foldl (fun st kv => storePut st kv.1 kv.2) disk

theorem walOpBeq_begin_commit : (WalOp.begin == WalOp.commit) = false := rfl
theorem walOpBeq_insert_commit : (WalOp.insert == WalOp.commit) = false := rfl
theorem walOpBeq_commit_commit : (WalOp.commit == WalOp.commit) = true := rfl
theorem walOpBeq_begin_insert : (WalOp.begin == WalOp.insert) = false := rfl
theorem walOpBeq_begin_del : (WalOp.begin == WalOp.del) = false := rfl
theorem walOpBeq_insert_insert : (WalOp.insert == WalOp.insert) = true := rfl
theorem walOpBeq_commit_insert : (WalOp.commit == WalOp.insert) = false := rfl
theorem walOpBeq_commit_del : (WalOp.commit == WalOp.del) = false := rfl

/-- Every transaction id of an auto-commit log has a commit record in the
log's committed set. -/
theorem contains_committedSet_autoCommit (lsn txn : Nat) :
    ∀ (S : List (String × String)) (j : Nat), j < S.length →
    (committedSet (autoCommitWal lsn txn S)).contains (txn + j) = true := by
  intro S
  induction S generalizing lsn txn with
  | nil => intro j hj; simp at hj
  | cons kv rest ih =>
    intro j hj
    have hset : committedSet (autoCommitWal lsn txn (kv :: rest)) =
        txn :: committedSet (autoCommitWal (lsn + 3) (txn + 1) rest) := by
      obtain ⟨k, v⟩ := kv
      simp [autoCommitWal, committedSet, List.filter,
        walOpBeq_begin_commit, walOpBeq_insert_commit, walOpBeq_commit_commit]
    rw [hset]
    cases j with
    | zero => simp [List.contains]
    | succ j' =>
      have h2 := ih (lsn + 3) (txn + 1) j' (by simpa using Nat.lt_of_succ_lt_succ hj)
      have hmem : (txn + 1) + j' ∈ committedSet (autoCommitWal (lsn + 3) (txn + 1) rest) :=
        List.elem_iff.mp h2
      have harith : txn + (j' + 1) = (txn + 1) + j' := by omega
      rw [harith]
      simp [List.contains, List.elem_cons, hmem]

/-- Replaying an auto-commit log whose committed set covers all its
transactions is just applying the inserts in order. -/
theorem walApply_autoCommit (C : List Nat) :
    ∀ (lsn txn : Nat) (S : List (String × String)) (disk : Store),
    (∀ j, j < S.length → C.contains (txn + j) = true) →
    walApply C (autoCommitWal lsn txn S) disk = applyAll S disk := by
  intro lsn txn S
  induction S generalizing lsn txn with
  | nil => intro disk _; rfl
  | cons kv rest ih =>
    intro disk hC
    obtain ⟨k, v⟩ := kv
    have h0 : C.contains txn = true := by simpa using hC 0 (by simp)
    have h0mem : txn ∈ C := List.elem_iff.mp h0
    have hstep : walApply C (autoCommitWal lsn txn ((k, v) :: rest)) disk =
        walApply C (autoCommitWal (lsn + 3) (txn + 1) rest) (storePut disk k v) := by
      simp [walApply, autoCommitWal, List.foldl_cons,
        walOpBeq_begin_insert, walOpBeq_begin_del, walOpBeq_insert_insert,
        walOpBeq_commit_insert, walOpBeq_commit_del, h0mem]
    rw [hstep]
    have : ∀ j, j < rest.length → C.contains ((txn + 1) + j) = true := by
      intro j hj
      have harith : (txn + 1) + j = txn + (j + 1) := by omega
      rw [harith]
      exact hC (j + 1) (by simpa using Nat.succ_lt_succ hj)
    exact ih (lsn + 3) (txn + 1) (storePut disk k v) this

/-- Recovery of an auto-commit log replays exactly the inserts, in order. -/
theorem recoverWal_autoCommit (lsn txn : Nat) (S : List (String × String))
    (disk : Store) :
    recoverWal (autoCommitWal lsn txn S) disk = applyAll S disk := by
  refine walApply_autoCommit _ lsn txn S disk ?_
  intro j hj
  exact contains_committedSet_autoCommit lsn txn S j hj

theorem find?_append (p : α → Bool) :
    ∀ l1 l2 : List α, (l1 ++ l2).find? p =
      match l1.find? p with
      | some a => some a
      | none => l2.find? p
  | [], l2 => by simp [List.find?]
  | a :: l1, l2 => by
    cases ha : p a with
    | true => simp [List.find?, ha]
    | false => simpa [List.find?, ha] using find?_append p l1 l2

theorem lastWrite_cons (kv : String × String) (rest : List (String × String)) (k : String) :
    lastWrite (kv :: rest) k =
      match lastWrite rest k with
      | some v => some v
      | none => if kv.1 = k then some kv.2 else none := by
  simp only [lastWrite, List.reverse_cons]
  rw [find?_append]
  cases h : (rest.reverse.find? (fun kv => kv.1 == k)) with
  | some a => simp
  | none =>
    cases hk : (kv.1 == k) with
    | true =>
      simp only [List.find?, hk]
      simp [beq_iff_eq.mp hk]
    | false =>
      have : ¬ kv.1 = k := by simpa using hk
      simp [List.find?, hk, this]

theorem lastWrite_of_absent (k : String) (S : List (String × String))
    (h : lastWrite S k = none) : ∀ kv ∈ S, kv.1 ≠ k := by
  intro kv hkv
  simp only [lastWrite] at h
  cases hf : (S.reverse.find? (fun kv => kv.1 == k)) with
  | some a => rw [hf] at h; exact absurd h (by simp)
  | none =>
    have := List.find?_eq_none.mp hf kv (List.mem_reverse.mpr hkv)
    simpa using this

theorem applyAll_get_absent (k : String) :
    ∀ (S : List (String × String)) (disk : Store),
    (∀ kv ∈ S, kv.1 ≠ k) → storeGet (applyAll S disk) k = storeGet disk k
  | [], _, _ => rfl
  | kv :: rest, disk, h => by
    have h1 : kv.1 ≠ k := h kv (List.mem_cons_self kv rest)
    have ht : ∀ kv' ∈ rest, kv'.1 ≠ k := fun kv' hkv' => h kv' (List.mem_cons_of_mem kv hkv')
    calc storeGet (applyAll (kv :: rest) disk) k
        = storeGet (applyAll rest (storePut disk kv.1 kv.2)) k := rfl
      _ = storeGet (storePut disk kv.1 kv.2) k := applyAll_get_absent k rest _ ht
      _ = storeGet disk k := storeGet_put_other kv.1 kv.2 k (fun hh => h1 hh.symm) disk

theorem applyAll_get_last (k v : String) :
    ∀ (S : List (String × String)) (disk : Store),
    lastWrite S k = some v → storeGet (applyAll S disk) k = some v
  | [], disk, h => by simp [lastWrite, List.find?] at h
  | kv :: rest, disk, h => by
    rw [lastWrite_cons] at h
    cases hrest : lastWrite rest k with
    | some w =>
      rw [hrest] at h
      simp only at h
      cases h
      exact applyAll_get_last k v rest (storePut disk kv.1 kv.2) hrest
    | none =>
      rw [hrest] at h
      simp only at h
      split at h
      · next hk =>
        cases h
        have habs := lastWrite_of_absent k rest hrest
        calc storeGet (applyAll (kv :: rest) disk) k
            = storeGet (storePut disk kv.1 kv.2) k := applyAll_get_absent k rest _ habs
          _ = some kv.2 := by rw [hk]; exact storeGet_put_self k kv.2 disk
      · exact absurd h (by simp)

/-! ## Claim theorems -/

/-- C9: for every WHERE expression, the planner's estimated selectivity
(`QueryPlanner._estimate_selectivity`) equals the function defined by
structural recursion in the spec: 0.01 for `=`, 0.99 for `!=`, 0.33 for the
four inequalities, product for AND, min(1, sum) for OR, 0.10 otherwise. -/
theorem C9_selectivity_refines_spec (e : Expr) :
    estimateSelectivity e = selectivitySpec e := by
  induction e with
  | col name => rfl
  | lit v => rfl
  | bin l op r ihl ihr =>
    by_cases h1 : op = "="
    · simp [estimateSelectivity, selectivitySpec, h1]
    · by_cases h2 : op = "!="
      · simp [estimateSelectivity, selectivitySpec, h1, h2]
      · by_cases h3 : op = "<"
        · simp [estimateSelectivity, selectivitySpec, h1, h2, h3]
        · by_cases h4 : op = ">"
          · simp [estimateSelectivity, selectivitySpec, h1, h2, h3, h4]
          · by_cases h5 : op = "<="
            · simp [estimateSelectivity, selectivitySpec, h1, h2, h3, h4, h5]
            · by_cases h6 : op = ">="
              · simp [estimateSelectivity, selectivitySpec, h1, h2, h3, h4, h5, h6]
              · by_cases h7 : op = "AND"
                · simp [estimateSelectivity, selectivitySpec, h1, h2, h3, h4, h5, h6,
                    h7, ihl, ihr]
                · by_cases h8 : op = "OR"
                  · simp [estimateSelectivity, selectivitySpec, h1, h2, h3, h4, h5,
                      h6, h7, h8, ihl, ihr]
                  · simp [estimateSelectivity, selectivitySpec, h1, h2, h3, h4, h5,
                      h6, h7, h8]

/-- C5: after any sequence of committed auto-commit inserts, a crash (loss
of the in-memory state, the synced WAL and some on-disk B-tree image
survive) and recovery, `get(k)` returns the last committed value for every
key `k`; recovery re-applies every committed mutation in LSN order
(modelled from the spec, §4.4/§4.5). -/
theorem C5_durable_recovery (S : List (String × String)) (disk : Store)
    (lsn txn : Nat) (k v : String) (h : lastWrite S k = some v) :
    storeGet (recoverWal (autoCommitWal lsn txn S) disk) k = some v := by
  rw [recoverWal_autoCommit]
  exact applyAll_get_last k v S disk h

/-- Witness for C5 at a concrete run: three auto-commit inserts with an
overwrite of `k1`, recovery from an empty disk image. -/
theorem C5_durable_recovery_witness :
    storeGet (recoverWal (autoCommitWal 1 1 [("k1", "v1"), ("k2", "v2"), ("k1", "v3")]) [])
      "k1" = some "v3" :=
  C5_durable_recovery [("k1", "v1"), ("k2", "v2"), ("k1", "v3")] [] 1 1 "k1" "v3" rfl

/-- C1 (code bug): on the §8 scenario-6 data, the join query
`SELECT u.name, o.product FROM users u INNER JOIN orders o ON u.id = o.user_id`
does not return the three joined rows — it fails at parse time with
`ParseError: Expected 'FROM', got 'name'`, because the tokenizer's regex
has no alternative for `.` (so `u.name` becomes the two tokens `u`,`name`)
and the parser does not accept a table alias after `FROM users`. -/
theorem C1_join_query_parse_fails :
    parseSQL "SELECT u.name, o.product FROM users u INNER JOIN orders o ON u.id = o.user_id" =
      .error "Expected 'FROM', got 'name'" ∧
    executeSQL joinState 0
        "SELECT u.name, o.product FROM users u INNER JOIN orders o ON u.id = o.user_id" =
      .error ("Expected 'FROM', got 'name'", joinState) :=
  ⟨by rfl, by rfl⟩

/-- C2 (code bug): on the §8 scenario-6 data,
`SELECT id FROM users u INNER JOIN orders o ON u.id = o.user_id` does not
raise `AmbiguousColumn`: the parser treats the alias `u` as trailing junk
(no join is parsed at all) and the query returns the `id` column of
`users`.  Moreover no ambiguity check is reachable through a join: any
SELECT whose join clause did parse fails with `AttributeError`, because
`_execute_join` reads the non-existent field `stmt.table_alias`. -/
theorem C2_ambiguous_column_not_raised :
    executeSQL joinState 0 "SELECT id FROM users u INNER JOIN orders o ON u.id = o.user_id" =
      .ok (some [[Value.vInt 1], [Value.vInt 2]], joinState) ∧
    (∀ (s : Store) (sel : SelectStmt) (j : JoinClause) (cols : List ColumnDef),
      sel.join = some j → getColumns s sel.tableName = .ok cols →
      executeSelect s sel =
        .error ("AttributeError: 'SelectStmt' object has no attribute 'table_alias'", s)) := by
  refine ⟨by rfl, ?_⟩
  intro s sel j cols hj hcols
  simp only [executeSelect, hcols, hj]

/-- Witness for C2's universal half: a SELECT whose join clause parsed
(qualified ON condition, no aliases) still dies with the attribute error. -/
theorem C2_ambiguous_column_not_raised_witness :
    executeSelect joinState
      ⟨["name", "product"], "users", none, none, none,
        some ⟨"INNER", "orders", .col "users"⟩, none, none⟩ =
      .error ("AttributeError: 'SelectStmt' object has no attribute 'table_alias'",
        joinState) :=
  C2_ambiguous_column_not_raised.2 joinState
    ⟨["name", "product"], "users", none, none, none,
      some ⟨"INNER", "orders", .col "users"⟩, none, none⟩
    ⟨"INNER", "orders", .col "users"⟩
    [⟨"id", "INT"⟩, ⟨"name", "TEXT"⟩] rfl rfl

/-- C7: an INSERT whose value count differs from the declared column count
raises the column-count-mismatch failure before anything is written: the
error carries the untouched store, so no row key is written and the stats
row is unchanged. -/
theorem C7_insert_arity_mismatch (s : Store) (t : String) (values : List Value)
    (rowId : Nat) (cols : List ColumnDef) (hcols : getColumns s t = .ok cols)
    (hlen : values.length ≠ cols.length) :
    executeInsert s rowId t values =
      .error ("Column count mismatch: expected " ++ natRepr cols.length ++
        ", got " ++ natRepr values.length, s) := by
  simp only [executeInsert, hcols]
  simp [hlen]

/-- Witness for C7: inserting two values into the three-column §8 users
table fails with the mismatch message and the state unchanged. -/
theorem C7_insert_arity_mismatch_witness :
    executeInsert usersAgeState 9 "users" [Value.vInt 9, Value.vStr "Zoe"] =
      .error ("Column count mismatch: expected 3, got 2", usersAgeState) :=
  C7_insert_arity_mismatch usersAgeState "users" [Value.vInt 9, Value.vStr "Zoe"] 9
    [⟨"id", "INT"⟩, ⟨"name", "TEXT"⟩, ⟨"age", "INT"⟩] rfl (by decide)

theorem lexLtB_irrefl : ∀ l : List Char, lexLtB l l = false
  | [] => rfl
  | a :: l => by simp [lexLtB, lexLtB_irrefl l]

theorem valueLtB_irrefl (v : Value) : valueLtB v v = false := by
  cases v with
  | vStr s => simp [valueLtB, strLtB, lexLtB_irrefl]
  | vInt i => simp [valueLtB, valueToRat]
  | vFloat q => simp [valueLtB, valueToRat]
  | vBool b => simp [valueLtB, valueToRat]
  | vNull => simp [valueLtB, valueToRat]

theorem insertSorted_pairwise_on (lt : α → α → Bool) (P : α → Prop)
    (asym : ∀ x y, P x → P y → lt x y = true → lt y x = false)
    (negtrans : ∀ x y z, P x → P y → P z → lt x y = false → lt y z = false →
      lt x z = false)
    (a : α) (ha : P a) : ∀ l : List α, (∀ x ∈ l, P x) →
    l.Pairwise (fun x y => lt y x = false) →
    (insertSorted lt a l).Pairwise (fun x y => lt y x = false)
  | [], _, _ => by simp [insertSorted]
  | b :: l, hP, hl => by
    have hPb : P b := hP b (List.mem_cons_self b l)
    have hPl : ∀ x ∈ l, P x := fun x hx => hP x (List.mem_cons_of_mem b hx)
    simp only [insertSorted]
    rcases List.pairwise_cons.mp hl with ⟨hb, hl2⟩
    split
    · next hlt =>
      refine List.pairwise_cons.mpr
        ⟨?_, insertSorted_pairwise_on lt P asym negtrans a ha l hPl hl2⟩
      intro x hx
      rcases List.mem_cons.mp ((insertSorted_perm lt a l).mem_iff.mp hx) with hxa | hxl
      · subst hxa; exact asym b x hPb ha hlt
      · exact hb x hxl
    · next hlt =>
      have hba : lt b a = false := by
        cases hlt2 : lt b a with
        | true => exact absurd hlt2 hlt
        | false => rfl
      refine List.pairwise_cons.mpr ⟨?_, hl⟩
      intro x hx
      rcases List.mem_cons.mp hx with hxb | hxl
      · simpa [hxb] using hba
      · exact negtrans x b a (hPl x hxl) hPb ha (hb x hxl) hba

theorem sortStable_pairwise_on (lt : α → α → Bool) (P : α → Prop)
    (asym : ∀ x y, P x → P y → lt x y = true → lt y x = false)
    (negtrans : ∀ x y z, P x → P y → P z → lt x y = false → lt y z = false →
      lt x z = false) :
    ∀ l : List α, (∀ x ∈ l, P x) →
    (sortStable lt l).Pairwise (fun x y => lt y x = false)
  | [], _ => List.Pairwise.nil
  | a :: l, hP =>
    insertSorted_pairwise_on lt P asym negtrans a (hP a (List.mem_cons_self a l))
      (sortStable lt l)
      (fun x hx => hP x (List.mem_cons_of_mem a ((sortStable_perm lt l).mem_iff.mp hx)))
      (sortStable_pairwise_on lt P asym negtrans l
        (fun x hx => hP x (List.mem_cons_of_mem a hx)))

/-- C3 counterexample: on the §8 scenario-4 users table,
`SELECT name FROM users ORDER BY age LIMIT 0` does not truncate to zero
rows — the executor guards the truncation with Python truthiness
(`if stmt.limit:`), so `LIMIT 0` is ignored and all four rows come back. -/
theorem C3_limit_zero_counterexample :
    executeSQL usersAgeState 0 "SELECT name FROM users ORDER BY age LIMIT 0" =
      .ok (some [[Value.vStr "Bob"], [Value.vStr "David"], [Value.vStr "Alice"],
        [Value.vStr "Charlie"]], usersAgeState) ∧
    ([[Value.vStr "Bob"], [Value.vStr "David"], [Value.vStr "Alice"],
        [Value.vStr "Charlie"]] : List (List Value)) ≠ [] :=
  ⟨by rfl, by simp⟩

/-- C3 (amended): in an aggregate-free SELECT, `ORDER BY c` sorts the rows
ascending by `c` with a stable sort (permutation; ascending on
integer-valued sort keys; equal-key subsequences preserved), and `LIMIT n`
truncates to the first `n` rows after ordering for every positive `n`,
while `LIMIT 0` leaves the rows untruncated; on the §8 users table,
`SELECT name,age FROM users ORDER BY age LIMIT 3` returns
("Bob",25),("David",28),("Alice",30) in that order. -/
theorem C3_order_limit_amended :
    (∀ (c : String) (rows : List Row),
      (sortStable (fun r1 r2 => valueLtB (rowGet r1 c) (rowGet r2 c)) rows).Perm rows) ∧
    (∀ (c : String) (rows : List Row) (v : Value),
      (sortStable (fun r1 r2 => valueLtB (rowGet r1 c) (rowGet r2 c)) rows).filter
          (fun r => rowGet r c == v) =
        rows.filter (fun r => rowGet r c == v)) ∧
    (∀ (c : String) (rows : List Row),
      (∀ r ∈ rows, ∃ n : Int, rowGet r c = .vInt n) →
      (sortStable (fun r1 r2 => valueLtB (rowGet r1 c) (rowGet r2 c)) rows).Pairwise
        (fun r1 r2 => valueLtB (rowGet r2 c) (rowGet r1 c) = false)) ∧
    (∀ (n : Int) (l : List Row), 0 < n → applyLimit (some n) l = l.take n.toNat) ∧
    (∀ l : List Row, applyLimit (some 0) l = l) ∧
    executeSQL usersAgeState 0 "SELECT name,age FROM users ORDER BY age LIMIT 3" =
      .ok (some [[Value.vStr "Bob", Value.vInt 25], [Value.vStr "David", Value.vInt 28],
        [Value.vStr "Alice", Value.vInt 30]], usersAgeState) := by
  refine ⟨?_, ?_, ?_, ?_, ?_, by rfl⟩
  · intro c rows
    exact sortStable_perm _ rows
  · intro c rows v
    refine sortStable_filter _ _ ?_ rows
    intro x y hx hy
    have hx2 : rowGet x c = v := by simpa using hx
    have hy2 : rowGet y c = v := by simpa using hy
    rw [hx2, hy2]
    exact valueLtB_irrefl v
  · intro c rows hint
    refine sortStable_pairwise_on _ (fun r => ∃ n : Int, rowGet r c = .vInt n)
      ?_ ?_ rows hint
    · intro x y hx hy hxy
      obtain ⟨nx, ex⟩ := hx
      obtain ⟨ny, ey⟩ := hy
      simp only [ex, ey, valueLtB, valueToRat, decide_eq_true_eq] at hxy
      simp only [ex, ey, valueLtB, valueToRat, decide_eq_false_iff_not]
      exact not_lt.mpr (le_of_lt hxy)
    · intro x y z hx hy hz hxy hyz
      obtain ⟨nx, ex⟩ := hx
      obtain ⟨ny, ey⟩ := hy
      obtain ⟨nz, ez⟩ := hz
      simp only [ex, ey, valueLtB, valueToRat, decide_eq_false_iff_not] at hxy
      simp only [ey, ez, valueLtB, valueToRat, decide_eq_false_iff_not] at hyz
      simp only [ex, ez, valueLtB, valueToRat, decide_eq_false_iff_not]
      intro hcon
      exact absurd hcon (not_lt.mpr (le_trans (not_lt.mp hyz) (not_lt.mp hxy)))
  · intro n l hn
    have : n ≠ 0 := by omega
    simp [applyLimit, this]
  · intro l
    simp [applyLimit]

/-- Witness for the hypothesis-bearing parts of the amended C3: sortedness
of a concrete two-row sort with integer keys, and LIMIT 2 truncation of a
concrete three-element list. -/
theorem C3_order_limit_amended_witness :
    (sortStable (fun r1 r2 => valueLtB (rowGet r1 "age") (rowGet r2 "age"))
      [⟨[("age", Value.vInt 7)], []⟩, ⟨[("age", Value.vInt 3)], []⟩]).Pairwise
      (fun r1 r2 => valueLtB (rowGet r2 "age") (rowGet r1 "age") = false) ∧
    applyLimit (some 2) ([⟨[], []⟩, ⟨[("x", Value.vNull)], []⟩, ⟨[], []⟩] : List Row) =
      ([⟨[], []⟩, ⟨[("x", Value.vNull)], []⟩] : List Row) := by
  constructor
  · refine C3_order_limit_amended.2.2.1 "age"
      [⟨[("age", Value.vInt 7)], []⟩, ⟨[("age", Value.vInt 3)], []⟩] ?_
    intro r hr
    rcases List.mem_cons.mp hr with h1 | h2
    · exact ⟨7, by rw [h1]; rfl⟩
    · have : r = ⟨[("age", Value.vInt 3)], []⟩ := by simpa using h2
      exact ⟨3, by rw [this]; rfl⟩
  · exact (C3_order_limit_amended.2.2.2.1 2
      [⟨[], []⟩, ⟨[("x", Value.vNull)], []⟩, ⟨[], []⟩] (by norm_num))

/-- C4 counterexample: `SELECT id FROM users u` is not a statement of the
§4.7 grammar (the trailing alias token `u` follows a complete statement),
yet parsing succeeds — `parse_sql` never checks that the token position
reached the end, so trailing tokens are silently ignored rather than
rejected with a ParseFailure. -/
theorem C4_trailing_tokens_accepted :
    parseSQL "SELECT id FROM users u" =
      .ok (.select ⟨["id"], "users", none, none, none, none, none, none⟩) := by rfl

/-- C4 (amended): the parser raises ParseFailure for the malformed inputs
it detects — a token other than the expected keyword (the message carries
the offending token, but no position), exhausted input, an empty
statement, an unsupported leading keyword — while a well-formed statement
followed by extra trailing tokens (such as a table alias) is accepted with
the trailing tokens ignored. -/
theorem C4_parse_failure_amended :
    (∀ (toks : List String) (pos : Nat) (expected tok : String),
      toks.get? pos = some tok → pyToUpper tok ≠ pyToUpper expected →
      expectTok toks pos expected =
        .error ("Expected '" ++ expected ++ "', got '" ++ tok ++ "'")) ∧
    (∀ (toks : List String) (pos : Nat) (expected : String),
      toks.get? pos = none →
      expectTok toks pos expected = .error "Unexpected end of input") ∧
    parseSQL "" = .error "Empty SQL statement" ∧
    parseSQL "FOO BAR" = .error "Unsupported statement: FOO" ∧
    parseSQL "SELECT id FROM users u" =
      .ok (.select ⟨["id"], "users", none, none, none, none, none, none⟩) := by
  refine ⟨?_, ?_, by rfl, by rfl, by rfl⟩
  · intro toks pos expected tok htok hne
    simp only [List.get?_eq_getElem?] at htok
    simp [expectTok, advanceTok, htok, hne]
  · intro toks pos expected htok
    simp only [List.get?_eq_getElem?] at htok
    simp [expectTok, advanceTok, htok]

/-- Witness for the hypothesis-bearing parts of the amended C4. -/
theorem C4_parse_failure_amended_witness :
    expectTok ["name"] 0 "FROM" = .error "Expected 'FROM', got 'name'" ∧
    expectTok ["name"] 7 "FROM" = .error "Unexpected end of input" :=
  ⟨C4_parse_failure_amended.1 ["name"] 0 "FROM" "name" rfl (by decide),
   C4_parse_failure_amended.2.1 ["name"] 7 "FROM" rfl⟩

theorem joinPipe_mem_pipe (x y : String) (rest : List String) :
    '|' ∈ (joinPipe (x :: y :: rest)).data := by
  show '|' ∈ (x ++ "|" ++ joinPipe (y :: rest)).data
  simp [String.data_append]

/-- C10: a tombstoned row (stored value exactly `DELETED`) is skipped by
`execute_select` but not by `execute_update`: with at least two declared
columns the UPDATE re-serialization always contains a `|` and therefore
never equals `DELETED`, so an unconditional UPDATE rewrites the tombstone
and the row reappears in later SELECTs — demonstrated end to end on
`t(a INT, b TEXT)`: after DELETE the select is empty and the stored value
is `DELETED`; after `UPDATE t SET b = 'y'` the stored value is `DELETED|`
and `SELECT * FROM t` returns the resurrected row `("DELETED", "")`. -/
theorem C10_tombstone_resurrection :
    (∀ (columns : List ColumnDef) (row : Row), 2 ≤ columns.length →
      serializeUpdateRow columns row ≠ "DELETED") ∧
    (∀ (columns : List ColumnDef) (k : String) (kvs : List (String × String)),
      selectParseRows columns ((k, "DELETED") :: kvs) = selectParseRows columns kvs) ∧
    executeSQL tombDeletedState 0 "SELECT * FROM t" = .ok (some [], tombDeletedState) ∧
    storeGet tombDeletedState (rowKeyOf "t" 1) = some "DELETED" ∧
    executeUpdate tombDeletedState "t" [("b", Value.vStr "y")] none = .ok tombUpdatedState ∧
    storeGet tombUpdatedState (rowKeyOf "t" 1) = some "DELETED|" ∧
    executeSQL tombUpdatedState 0 "SELECT * FROM t" =
      .ok (some [[Value.vStr "DELETED", Value.vStr ""]], tombUpdatedState) := by
  refine ⟨?_, ?_, by rfl, by rfl, by rfl, by rfl, by rfl⟩
  · intro columns row h2 heq
    match columns, h2 with
    | c1 :: c2 :: rest, _ =>
      have hmem : '|' ∈ (serializeUpdateRow (c1 :: c2 :: rest) row).data := by
        simpa [serializeUpdateRow] using
          joinPipe_mem_pipe _ _ (rest.map
            (fun c =>
              match row.fields.find? (fun kv => kv.1 == c.name) with
              | some kv => pyStr kv.2
              | none => ""))
      rw [heq] at hmem
      simp at hmem
  · intro columns k kvs
    simp [selectParseRows]

/-- Witness for the hypothesis-bearing part of C10: a two-column
serialization of the empty row is `|`, not `DELETED`. -/
theorem C10_tombstone_resurrection_witness :
    serializeUpdateRow [⟨"a", "INT"⟩, ⟨"b", "TEXT"⟩] ⟨[], []⟩ ≠ "DELETED" :=
  C10_tombstone_resurrection.1 [⟨"a", "INT"⟩, ⟨"b", "TEXT"⟩] ⟨[], []⟩ (by norm_num)

/-! ### Grouping (C6 infrastructure) -/

/-- First occurrences of a list, in order of first appearance. -/
def dedupFirst [DecidableEq α] : List α → List α
  | [] => []
  | a :: l => a :: dedupFirst (l.filter (fun x => x ≠ a))
termination_by l => l.length
decreasing_by
  simp only [List.length_cons]
  exact Nat.lt_succ_of_le (List.length_filter_le _ _)

theorem mem_dedupFirst [DecidableEq α] (x : α) (l : List α) :
    x ∈ dedupFirst l ↔ x ∈ l := by
  suffices H : ∀ (n : Nat) (l : List α), l.length ≤ n → (x ∈ dedupFirst l ↔ x ∈ l) from
    H l.length l le_rfl
  intro n
  induction n with
  | zero =>
    intro l hl
    match l, hl with
    | [], _ => simp [dedupFirst]
  | succ n ih =>
    intro l hl
    match l with
    | [] => simp [dedupFirst]
    | a :: l2 =>
      have hlen : (l2.filter (fun x => x ≠ a)).length ≤ n := by
        have h1 := List.length_filter_le (fun x => x ≠ a) l2
        simp only [List.length_cons] at hl
        omega
      by_cases hxa : x = a
      · subst hxa
        simp [dedupFirst]
      · rw [dedupFirst]
        simp only [List.mem_cons, hxa, false_or]
        rw [ih _ hlen]
        simp [List.mem_filter, hxa]

theorem dedupFirst_append_single_mem [DecidableEq α] (k : α) (l : List α)
    (hk : k ∈ l) : dedupFirst (l ++ [k]) = dedupFirst l := by
  suffices H : ∀ (n : Nat) (l : List α), l.length ≤ n → k ∈ l →
      dedupFirst (l ++ [k]) = dedupFirst l from H l.length l le_rfl hk
  intro n
  induction n with
  | zero =>
    intro l hl hkl
    match l, hl with
    | [], _ => simp at hkl
  | succ n ih =>
    intro l hl hkl
    match l with
    | [] => simp at hkl
    | a :: l2 =>
      have hlen : (l2.filter (fun x => x ≠ a)).length ≤ n := by
        have h1 := List.length_filter_le (fun x => x ≠ a) l2
        simp only [List.length_cons] at hl
        omega
      by_cases hka : k = a
      · subst hka
        show dedupFirst (k :: (l2 ++ [k])) = dedupFirst (k :: l2)
        rw [dedupFirst, dedupFirst]
        congr 1
        rw [List.filter_append]
        simp
      · show dedupFirst (a :: (l2 ++ [k])) = dedupFirst (a :: l2)
        rw [dedupFirst, dedupFirst]
        congr 1
        rw [List.filter_append]
        have h2 : ([k].filter (fun x => x ≠ a)) = [k] := by simp [hka]
        rw [h2]
        apply ih _ hlen
        rw [List.mem_filter]
        refine ⟨?_, by simpa using hka⟩
        rcases List.mem_cons.mp hkl with h1 | h2
        · exact absurd h1 hka
        · exact h2

theorem dedupFirst_append_single_not_mem [DecidableEq α] (k : α) (l : List α)
    (hk : k ∉ l) : dedupFirst (l ++ [k]) = dedupFirst l ++ [k] := by
  suffices H : ∀ (n : Nat) (l : List α), l.length ≤ n → k ∉ l →
      dedupFirst (l ++ [k]) = dedupFirst l ++ [k] from H l.length l le_rfl hk
  intro n
  induction n with
  | zero =>
    intro l hl hkl
    match l, hl with
    | [], _ => simp [dedupFirst]
  | succ n ih =>
    intro l hl hkl
    match l with
    | [] => simp [dedupFirst]
    | a :: l2 =>
      have hka : k ≠ a := by
        intro h; exact hkl (by simp [h])
      have hlen : (l2.filter (fun x => x ≠ a)).length ≤ n := by
        have h1 := List.length_filter_le (fun x => x ≠ a) l2
        simp only [List.length_cons] at hl
        omega
      show dedupFirst (a :: (l2 ++ [k])) = dedupFirst (a :: l2) ++ [k]
      rw [dedupFirst, dedupFirst]
      rw [List.filter_append]
      have h2 : ([k].filter (fun x => x ≠ a)) = [k] := by simp [hka]
      rw [h2]
      rw [ih _ hlen (by
        rw [List.mem_filter]
        intro hcon
        exact hkl (List.mem_cons_of_mem a hcon.1))]
      simp

/-- The spec's description of grouping (§4.9): rows are partitioned by the
tuple of group-by column values, one output group per distinct key in
first-appearance order, each group holding the rows with that key in input
order. -/
def groupRowsSpec (rows : List Row) (gcols : List String) :
    List (List Value × List Row) :=
  (dedupFirst (rows.map (groupKeyOf gcols))).map
    (fun k => (k, rows.filter (fun r => groupKeyOf gcols r == k)))

theorem groupRowsSpec_nil (gcols : List String) : groupRowsSpec [] gcols = [] := by
  simp [groupRowsSpec, dedupFirst]

theorem groupRows_step (gcols : List String) (processed : List Row) (r : Row) :
    (if (groupRowsSpec processed gcols).any (fun g => g.1 == groupKeyOf gcols r) then
      (groupRowsSpec processed gcols).map
        (fun g => if g.1 == groupKeyOf gcols r then (g.1, g.2 ++ [r]) else g)
     else groupRowsSpec processed gcols ++ [(groupKeyOf gcols r, [r])]) =
    groupRowsSpec (processed ++ [r]) gcols := by
  set k := groupKeyOf gcols r with hk
  have hkeys : (processed ++ [r]).map (groupKeyOf gcols) =
      processed.map (groupKeyOf gcols) ++ [k] := by
    simp [hk]
  by_cases hmem : k ∈ processed.map (groupKeyOf gcols)
  · have hany : (groupRowsSpec processed gcols).any (fun g => g.1 == k) = true := by
      apply List.any_eq_true.mpr
      refine ⟨(k, processed.filter (fun r2 => groupKeyOf gcols r2 == k)), ?_, by simp⟩
      simp only [groupRowsSpec]
      exact List.mem_map.mpr ⟨k, (mem_dedupFirst k _).mpr hmem, rfl⟩
    rw [hany]
    simp only [if_true]
    unfold groupRowsSpec
    rw [hkeys, dedupFirst_append_single_mem k _ hmem]
    rw [List.map_map]
    apply List.map_congr_left
    intro k2 hk2
    simp only [Function.comp]
    by_cases hkk : k2 = k
    · subst hkk
      have hbq : (k == k) = true := by simp
      simp only [hbq, if_true, List.filter_append]
      have hone : ([r].filter (fun r2 => groupKeyOf gcols r2 == k)) = [r] := by
        simp [List.filter, hk]
      rw [hone]
    · have hbq : (k2 == k) = false := by simp [hkk]
      simp only [hbq, Bool.false_eq_true, if_false, List.filter_append]
      have hzero : ([r].filter (fun r2 => groupKeyOf gcols r2 == k2)) = [] := by
        simp only [List.filter, ← hk]
        have : (k == k2) = false := by
          simp only [beq_eq_false_iff_ne, ne_eq]
          intro h; exact hkk h.symm
        rw [this]
      rw [hzero, List.append_nil]
  · have hany : (groupRowsSpec processed gcols).any (fun g => g.1 == k) = false := by
      apply List.any_eq_false.mpr
      intro g hg
      simp only [groupRowsSpec] at hg
      rcases List.mem_map.mp hg with ⟨k2, hk2, rfl⟩
      have hk2m : k2 ∈ processed.map (groupKeyOf gcols) := (mem_dedupFirst k2 _).mp hk2
      simp only [beq_eq_false_iff_ne, ne_eq, Bool.not_eq_true]
      intro hcon
      have : k2 = k := by simpa using hcon
      exact hmem (this ▸ hk2m)
    rw [hany]
    simp only [Bool.false_eq_true, if_false]
    unfold groupRowsSpec
    rw [hkeys, dedupFirst_append_single_not_mem k _ hmem]
    rw [List.map_append]
    congr 1
    · apply List.map_congr_left
      intro k2 hk2
      have hk2mem : k2 ∈ processed.map (groupKeyOf gcols) := (mem_dedupFirst k2 _).mp hk2
      have hkk : k2 ≠ k := fun h => hmem (h ▸ hk2mem)
      rw [List.filter_append]
      have hzero : ([r].filter (fun r2 => groupKeyOf gcols r2 == k2)) = [] := by
        simp only [List.filter, ← hk]
        have : (k == k2) = false := by
          simp only [beq_eq_false_iff_ne, ne_eq]
          intro h; exact hkk h.symm
        rw [this]
      rw [hzero, List.append_nil]
    · simp only [List.map_cons, List.map_nil]
      have hempty : processed.filter (fun r2 => groupKeyOf gcols r2 == k) = [] := by
        apply List.filter_eq_nil_iff.mpr
        intro r2 hr2
        simp only [beq_eq_false_iff_ne, ne_eq, Bool.not_eq_true]
        intro hcon
        exact hmem (List.mem_map.mpr ⟨r2, hr2, by simpa using hcon⟩)
      rw [List.filter_append, hempty]
      have hone : ([r].filter (fun r2 => groupKeyOf gcols r2 == k)) = [r] := by
        simp [List.filter, hk]
      rw [hone]
      rfl

/-- `group_rows` partitions the rows by group key, one group per distinct
key in first-appearance order, each group listing its rows in input
order. -/
theorem groupRows_eq_spec (rows : List Row) (gcols : List String) :
    groupRows rows gcols = groupRowsSpec rows gcols := by
  have H : ∀ (todo processed : List Row),
      todo.foldl
        (fun acc r =>
          let k := groupKeyOf gcols r
          if acc.any (fun g => g.1 == k) then
            acc.map (fun g => if g.1 == k then (g.1, g.2 ++ [r]) else g)
          else acc ++ [(k, [r])])
        (groupRowsSpec processed gcols) =
      groupRowsSpec (processed ++ todo) gcols := by
    intro todo
    induction todo with
    | nil => intro processed; simp
    | cons r rest ih =>
      intro processed
      simp only [List.foldl_cons]
      rw [groupRows_step gcols processed r]
      rw [ih (processed ++ [r])]
      simp
  have h0 := H rows []
  rw [groupRowsSpec_nil] at h0
  simpa [groupRows] using h0

theorem aggValues_cons (col : String) (r : Row) (rest : List Row) :
    aggValues col (r :: rest) =
      if rowGet r col = Value.vNull then aggValues col rest
      else aggNumConvert (rowGet r col) :: aggValues col rest := by
  cases hv : rowGet r col <;> simp [aggValues, List.filterMap_cons, hv]

theorem aggValues_filter (col : String) :
    ∀ rows : List Row,
    aggValues col (rows.filter (fun r => !(rowGet r col == Value.vNull))) =
      aggValues col rows
  | [] => rfl
  | r :: rest => by
    by_cases hv : rowGet r col = Value.vNull
    · rw [List.filter_cons]
      have hcond : (!(rowGet r col == Value.vNull)) = false := by simp [hv]
      rw [hcond]
      simp only [Bool.false_eq_true, if_false]
      rw [aggValues_filter col rest, aggValues_cons, if_pos hv]
    · rw [List.filter_cons]
      have hcond : (!(rowGet r col == Value.vNull)) = true := by simp [hv]
      rw [hcond]
      simp only [if_true]
      rw [aggValues_cons, aggValues_cons, if_neg hv, if_neg hv,
        aggValues_filter col rest]

theorem computeAggregate_congr_values (f col : String) (rows1 rows2 : List Row)
    (hf : f ≠ "COUNT") (h : aggValues col rows1 = aggValues col rows2) :
    computeAggregate f col rows1 = computeAggregate f col rows2 := by
  simp only [computeAggregate, hf, if_false]
  rw [h]

/-- C6: `COUNT(*)` yields the group size; `COUNT(col)`, `SUM`, `AVG`,
`MIN`, `MAX` ignore missing (`None`) values; GROUP BY partitions the rows
by the tuple of group-by column values, one output group per distinct key
in first-appearance order; with aggregates but no GROUP BY the whole input
is a single group; and on the §8 orders table,
`SELECT customer, SUM(amount) FROM orders GROUP BY customer` returns
Alice=250, Bob=300, Charlie=300, one row per customer. -/
theorem C6_aggregates_grouping :
    (∀ rows : List Row, computeAggregate "COUNT" "*" rows = .vInt rows.length) ∧
    (∀ (col : String) (rows : List Row), col ≠ "*" →
      computeAggregate "COUNT" col rows =
        .vInt ((rows.filter (fun r => !(rowGet r col == Value.vNull))).length)) ∧
    (∀ f ∈ (["SUM", "AVG", "MIN", "MAX"] : List String), ∀ (col : String) (rows : List Row),
      computeAggregate f col rows =
        computeAggregate f col (rows.filter (fun r => !(rowGet r col == Value.vNull)))) ∧
    (∀ (rows : List Row) (gcols : List String),
      groupRows rows gcols = groupRowsSpec rows gcols) ∧
    (∀ (rows : List Row) (cols : List String),
      cols.any (fun ce => (parseAggFn ce).1.isSome) = true →
      applyAggregates rows cols none =
        [cols.map (fun ce =>
          match (parseAggFn ce).1 with
          | some f => computeAggregate f (parseAggFn ce).2 rows
          | none =>
            match rows with
            | r :: _ => rowGet r (parseAggFn ce).2
            | [] => Value.vNull)]) ∧
    executeSQL ordersState 0 "SELECT customer, SUM(amount) FROM orders GROUP BY customer" =
      .ok (some [[Value.vStr "Alice", Value.vInt 250], [Value.vStr "Bob", Value.vInt 300],
        [Value.vStr "Charlie", Value.vInt 300]], ordersState) := by
  refine ⟨?_, ?_, ?_, ?_, ?_, by rfl⟩
  · intro rows; rfl
  · intro col rows hcol
    simp [computeAggregate, hcol]
  · intro f hf col rows
    have hfC : f ≠ "COUNT" := by
      intro hEq
      subst hEq
      exact absurd hf (by decide)
    exact (computeAggregate_congr_values f col rows _ hfC
      (aggValues_filter col rows).symm)
  · intro rows gcols
    exact groupRows_eq_spec rows gcols
  · intro rows cols hagg
    have hagg2 : (cols.map (fun ce => (ce, parseAggFn ce))).any
        (fun ci => ci.2.1.isSome) = true := by
      simpa [List.any_map, Function.comp] using hagg
    simp only [applyAggregates, hagg2, Bool.not_true, Bool.false_and,
      Bool.false_eq_true, if_false]
    simp [List.map_map, Function.comp]

/-- Witness for the hypothesis-bearing parts of C6: COUNT over a column on
a group with one missing value, SUM ignoring a missing value, and the
single-group shape of `SELECT COUNT(*)` without GROUP BY. -/
theorem C6_aggregates_grouping_witness :
    computeAggregate "COUNT" "x"
      [⟨[("x", Value.vNull)], []⟩, ⟨[("x", Value.vInt 5)], []⟩] =
      .vInt (([⟨[("x", Value.vNull)], []⟩, ⟨[("x", Value.vInt 5)], []⟩] : List Row).filter
        (fun r => !(rowGet r "x" == Value.vNull))).length ∧
    computeAggregate "SUM" "x" [⟨[("x", Value.vNull)], []⟩] =
      computeAggregate "SUM" "x"
        (([⟨[("x", Value.vNull)], []⟩] : List Row).filter
          (fun r => !(rowGet r "x" == Value.vNull))) ∧
    applyAggregates [] ["COUNT(*)"] none = [[Value.vInt 0]] := by
  refine ⟨?_, ?_, ?_⟩
  · exact C6_aggregates_grouping.2.1 "x" _ (by decide)
  · exact C6_aggregates_grouping.2.2.1 "SUM" (by simp) "x" _
  · have h := C6_aggregates_grouping.2.2.2.2.1 [] ["COUNT(*)"] (by rfl)
    rw [h]
    rfl

/-! ### String order and catalog-key lemmas (C8 infrastructure) -/

theorem char_eq_of_toNat_eq {a b : Char} (h : a.toNat = b.toNat) : a = b :=
  Char.eq_of_val_eq (UInt32.ext h)

theorem lexLtB_trans : ∀ {a b c : List Char},
    lexLtB a b = true → lexLtB b c = true → lexLtB a c = true
  | [], [], _, hab, _ => by simp [lexLtB] at hab
  | [], _ :: _, [], _, hbc => by simp [lexLtB] at hbc
  | [], _ :: _, _ :: _, _, _ => by simp [lexLtB]
  | _ :: _, [], _, hab, _ => by simp [lexLtB] at hab
  | _ :: _, _ :: _, [], _, hbc => by simp [lexLtB] at hbc
  | x :: xs, y :: ys, z :: zs, hab, hbc => by
    simp only [lexLtB] at hab hbc ⊢
    by_cases h1 : x.toNat < y.toNat
    · by_cases h2 : y.toNat < z.toNat
      · simp [Nat.lt_trans h1 h2]
      · by_cases h3 : z.toNat < y.toNat
        · simp [h2, h3] at hbc
        · have : y.toNat = z.toNat := by omega
          simp [this ▸ h1]
    · by_cases h4 : y.toNat < x.toNat
      · simp [h1, h4] at hab
      · have hxy : x.toNat = y.toNat := by omega
        by_cases h2 : y.toNat < z.toNat
        · simp [hxy ▸ h2]
        · by_cases h3 : z.toNat < y.toNat
          · simp [h2, h3] at hbc
          · have hyz : y.toNat = z.toNat := by omega
            simp only [h1, if_false, h4, if_false] at hab
            simp only [h2, if_false, h3, if_false] at hbc
            have hxz1 : ¬ x.toNat < z.toNat := by omega
            have hxz2 : ¬ z.toNat < x.toNat := by omega
            simp [hxz1, hxz2, lexLtB_trans hab hbc]

theorem lexLtB_asymm : ∀ {a b : List Char}, lexLtB a b = true → lexLtB b a = false
  | [], [], hab => by simp [lexLtB] at hab
  | [], _ :: _, _ => by simp [lexLtB]
  | _ :: _, [], hab => by simp [lexLtB] at hab
  | x :: xs, y :: ys, hab => by
    simp only [lexLtB] at hab ⊢
    by_cases h1 : x.toNat < y.toNat
    · have h2 : ¬ y.toNat < x.toNat := by omega
      simp [h1, h2]
    · by_cases h2 : y.toNat < x.toNat
      · simp [h1, h2] at hab
      · simp only [h1, if_false, h2, if_false] at hab ⊢
        exact lexLtB_asymm hab

theorem lexLtB_of_not_of_ne : ∀ {a b : List Char},
    lexLtB a b = false → a ≠ b → lexLtB b a = true
  | [], [], _, hne => absurd rfl hne
  | [], _ :: _, hab, _ => by simp [lexLtB] at hab
  | _ :: _, [], _, _ => by simp [lexLtB]
  | x :: xs, y :: ys, hab, hne => by
    simp only [lexLtB] at hab ⊢
    by_cases h1 : x.toNat < y.toNat
    · simp [h1] at hab
    · by_cases h2 : y.toNat < x.toNat
      · simp [h2]
      · have hxy : x = y := char_eq_of_toNat_eq (by omega)
        subst hxy
        have h3 : ¬ x.toNat < x.toNat := by omega
        simp only [h3, if_false] at hab ⊢
        have hne2 : xs ≠ ys := fun h => hne (h ▸ rfl)
        exact lexLtB_of_not_of_ne hab hne2

theorem lexLtB_append_self : ∀ (p e : List Char), lexLtB (p ++ e) p = false
  | [], [] => rfl
  | [], _ :: _ => rfl
  | a :: p, e => by
    simp only [List.cons_append, lexLtB]
    have : ¬ a.toNat < a.toNat := by omega
    simp [this, lexLtB_append_self p e]

theorem lexLtB_append_lt : ∀ (common : List Char) {a b : Char}, a.toNat < b.toNat →
    ∀ (as bs : List Char), lexLtB (common ++ a :: as) (common ++ b :: bs) = true
  | [], a, b, h, as, bs => by simp [lexLtB, h]
  | c :: common, a, b, h, as, bs => by
    simp only [List.cons_append, lexLtB]
    have : ¬ c.toNat < c.toNat := by omega
    simp [this, lexLtB_append_lt common h as bs]

/-- Any key lying in the inclusive range `[p, p ++ "~"]` extends `p`. -/
theorem lexLtB_between_extends : ∀ (pd kd : List Char),
    lexLtB kd pd = false → lexLtB (pd ++ ['~']) kd = false →
    ∃ rest, kd = pd ++ rest
  | [], kd, _, _ => ⟨kd, rfl⟩
  | c :: pd, [], hlo, _ => by simp [lexLtB] at hlo
  | c :: pd, d :: kd, hlo, hhi => by
    simp only [lexLtB, List.cons_append] at hlo hhi
    by_cases h1 : d.toNat < c.toNat
    · simp [h1] at hlo
    · by_cases h2 : c.toNat < d.toNat
      · simp [h2, Nat.lt_asymm h2] at hhi
      · have hdc : d = c := char_eq_of_toNat_eq (by omega)
        subst hdc
        have h3 : ¬ d.toNat < d.toNat := by omega
        simp only [h3, if_false] at hlo hhi
        obtain ⟨rest, hrest⟩ := lexLtB_between_extends pd kd hlo hhi
        exact ⟨rest, by simp [hrest]⟩

/-- The identifier characters the SQL tokenizer can produce for a name:
ASCII digits, letters, and underscore. -/
def IdentChar (c : Char) : Prop :=
  (48 ≤ c.toNat ∧ c.toNat ≤ 57) ∨ (65 ≤ c.toNat ∧ c.toNat ≤ 90) ∨
  (97 ≤ c.toNat ∧ c.toNat ≤ 122) ∨ c.toNat = 95

instance (c : Char) : Decidable (IdentChar c) := by unfold IdentChar; infer_instance

/-- A non-empty identifier string. -/
def IdentStr (x : String) : Prop := x.data ≠ [] ∧ ∀ c ∈ x.data, IdentChar c

instance (x : String) : Decidable (IdentStr x) := by unfold IdentStr; infer_instance

theorem identChar_ne_colon {c : Char} (h : IdentChar c) : c ≠ ':' := by
  intro hc; subst hc; exact absurd h (by decide)

theorem identChar_ne_comma {c : Char} (h : IdentChar c) : c ≠ ',' := by
  intro hc; subst hc; exact absurd h (by decide)

theorem identChar_ne_equals {c : Char} (h : IdentChar c) : c ≠ '=' := by
  intro hc; subst hc; exact absurd h (by decide)

theorem identChar_lt_tilde {c : Char} (h : IdentChar c) : c.toNat < 126 := by
  rcases h with ⟨h1, h2⟩ | ⟨h1, h2⟩ | ⟨h1, h2⟩ | h1 <;> omega

theorem natReprAux_shape : ∀ (fuel n : Nat), n < fuel →
    natReprAux fuel n ≠ [] ∧ ∀ ch ∈ natReprAux fuel n, ∃ k, k < 10 ∧ ch = digitChar k
  | 0, n, h => by omega
  | fuel + 1, n, h => by
    rw [natReprAux]
    by_cases h10 : n < 10
    · simp only [h10, if_true]
      refine ⟨by simp, ?_⟩
      intro ch hch
      have : ch = digitChar n := by simpa using hch
      exact ⟨n, h10, this⟩
    · simp only [h10, if_false]
      have hdiv : n / 10 < fuel := by
        have h1 : n / 10 < n := Nat.div_lt_self (by omega) (by omega)
        omega
      obtain ⟨hne, hall⟩ := natReprAux_shape fuel (n / 10) hdiv
      refine ⟨by simp [hne], ?_⟩
      intro ch hch
      rcases List.mem_append.mp hch with h1 | h2
      · exact hall ch h1
      · have : ch = digitChar (n % 10) := by simpa using h2
        exact ⟨n % 10, Nat.mod_lt n (by omega), this⟩

theorem digitChar_isDigit {k : Nat} (h : k < 10) : (digitChar k).isDigit = true := by
  interval_cases k <;> decide

theorem digitVal_digitChar {k : Nat} (h : k < 10) : digitVal (digitChar k) = k := by
  interval_cases k <;> decide

theorem digitChar_identChar {k : Nat} (h : k < 10) : IdentChar (digitChar k) := by
  interval_cases k <;> decide

theorem digitsToNat_append_single (l : List Char) (d : Char) :
    digitsToNat (l ++ [d]) = digitsToNat l * 10 + digitVal d := by
  simp [digitsToNat, List.foldl_append]

theorem digitsToNat_natReprAux : ∀ (fuel n : Nat), n < fuel →
    digitsToNat (natReprAux fuel n) = n
  | 0, n, h => by omega
  | fuel + 1, n, h => by
    rw [natReprAux]
    by_cases h10 : n < 10
    · simp only [h10, if_true]
      simp [digitsToNat, digitVal_digitChar h10]
    · simp only [h10, if_false]
      have hdiv : n / 10 < fuel := by
        have h1 : n / 10 < n := Nat.div_lt_self (by omega) (by omega)
        omega
      rw [digitsToNat_append_single, digitsToNat_natReprAux fuel (n / 10) hdiv,
        digitVal_digitChar (Nat.mod_lt n (by omega))]
      omega

theorem natRepr_shape (n : Nat) :
    (natRepr n).data ≠ [] ∧ ∀ ch ∈ (natRepr n).data, ∃ k, k < 10 ∧ ch = digitChar k :=
  natReprAux_shape (n + 1) n (by omega)

theorem pyIntParse_natRepr (n : Nat) : pyIntParse (natRepr n) = some (n : Int) := by
  obtain ⟨hne, hall⟩ := natRepr_shape n
  have hdigits : (natRepr n).data.all Char.isDigit = true := by
    apply List.all_eq_true.mpr
    intro ch hch
    obtain ⟨k, hk, hchk⟩ := hall ch hch
    exact hchk ▸ digitChar_isDigit hk
  have hval : digitsToNat (natRepr n).data = n := by
    show digitsToNat (String.mk (natReprAux (n + 1) n)).data = n
    exact digitsToNat_natReprAux (n + 1) n (by omega)
  rcases hd : (natRepr n).data with _ | ⟨c, rest⟩
  · exact absurd hd hne
  · have hc : ∃ k, k < 10 ∧ c = digitChar k := hall c (by simp [hd])
    obtain ⟨k, hk, hck⟩ := hc
    have hcm : c ≠ '-' := by
      subst hck; intro hcon
      have := digitChar_identChar hk
      rw [hcon] at this
      exact absurd this (by decide)
    have hcp : c ≠ '+' := by
      subst hck; intro hcon
      have := digitChar_identChar hk
      rw [hcon] at this
      exact absurd this (by decide)
    simp only [pyIntParse, hd]
    rw [if_neg hcm, if_neg hcp]
    rw [hd] at hdigits
    rw [hdigits]
    simp only [if_true]
    rw [hd] at hval
    rw [hval]

theorem splitCharAux_no_sep (c : Char) :
    ∀ (l acc : List Char), (∀ x ∈ l, x ≠ c) →
    splitCharAux c l acc = [String.mk (acc.reverse ++ l)]
  | [], acc, _ => by simp [splitCharAux]
  | x :: l, acc, h => by
    have hx : x ≠ c := h x (List.mem_cons_self x l)
    rw [splitCharAux, if_neg hx]
    rw [splitCharAux_no_sep c l (x :: acc) (fun y hy => h y (List.mem_cons_of_mem x hy))]
    simp

theorem splitCharAux_sep (c : Char) :
    ∀ (l1 l2 acc : List Char), (∀ x ∈ l1, x ≠ c) →
    splitCharAux c (l1 ++ c :: l2) acc =
      String.mk (acc.reverse ++ l1) :: splitCharAux c l2 []
  | [], l2, acc, _ => by
    simp [splitCharAux]
  | x :: l1, l2, acc, h => by
    have hx : x ≠ c := h x (List.mem_cons_self x l1)
    show splitCharAux c (x :: (l1 ++ c :: l2)) acc =
      String.mk (acc.reverse ++ x :: l1) :: splitCharAux c l2 []
    rw [splitCharAux, if_neg hx]
    rw [splitCharAux_sep c l1 l2 (x :: acc) (fun y hy => h y (List.mem_cons_of_mem x hy))]
    simp

/-- The store invariant maintained by the engine: keys strictly ascending
(hence distinct). -/
def SortedStore (s : Store) : Prop := s.Pairwise (fun a b => strLtB a.1 b.1 = true)

theorem strLtB_ne {a b : String} (h : strLtB a b = true) : a ≠ b := by
  intro hab
  subst hab
  rw [strLtB, lexLtB_irrefl] at h
  exact absurd h (by simp)

theorem strLtB_trans {a b c : String} (h1 : strLtB a b = true) (h2 : strLtB b c = true) :
    strLtB a c = true := lexLtB_trans h1 h2

theorem strLtB_of_not_of_ne {a b : String} (h1 : strLtB a b = false) (h2 : a ≠ b) :
    strLtB b a = true := by
  refine lexLtB_of_not_of_ne h1 ?_
  intro hd
  exact h2 (String.ext hd)

theorem mem_storePut_weak {k v : String} {e : String × String} :
    ∀ s : Store, e ∈ storePut s k v → e = (k, v) ∨ e ∈ s
  | [], he => by simpa [storePut] using he
  | (k1, v1) :: rest, he => by
    simp only [storePut] at he
    split at he
    · rcases List.mem_cons.mp he with h1 | h2
      · exact Or.inl h1
      · exact Or.inr h2
    · split at he
      · rcases List.mem_cons.mp he with h1 | h2
        · exact Or.inl h1
        · exact Or.inr (List.mem_cons_of_mem _ h2)
      · rcases List.mem_cons.mp he with h1 | h2
        · exact Or.inr (h1 ▸ List.mem_cons_self _ _)
        · rcases mem_storePut_weak rest h2 with h3 | h4
          · exact Or.inl h3
          · exact Or.inr (List.mem_cons_of_mem _ h4)

theorem storePut_sorted (k v : String) :
    ∀ s : Store, SortedStore s → SortedStore (storePut s k v)
  | [], _ => by simp [storePut, SortedStore]
  | (k1, v1) :: rest, hs => by
    rcases List.pairwise_cons.mp hs with ⟨hk1, hrest⟩
    simp only [storePut]
    split
    · next hlt =>
      refine List.pairwise_cons.mpr ⟨?_, hs⟩
      intro e he
      rcases List.mem_cons.mp he with h1 | h2
      · simpa [h1] using hlt
      · exact strLtB_trans hlt (hk1 e h2)
    · split
      · next heq =>
        subst heq
        exact List.pairwise_cons.mpr ⟨hk1, hrest⟩
      · next hlt hne =>
        have hlt2 : strLtB k k1 = false := by
          cases h : strLtB k k1 with
          | true => exact absurd h hlt
          | false => rfl
        have hk1k : strLtB k1 k = true :=
          strLtB_of_not_of_ne hlt2 (fun h => hne h)
        refine List.pairwise_cons.mpr ⟨?_, storePut_sorted k v rest hrest⟩
        intro e he
        rcases mem_storePut_weak rest he with h1 | h2
        · simpa [h1] using hk1k
        · exact hk1 e h2

theorem mem_storePut_key_sorted {k v : String} :
    ∀ s : Store, SortedStore s → ∀ e ∈ storePut s k v, e.1 = k → e = (k, v)
  | [], _, e, he, hk => by simpa [storePut] using he
  | (k1, v1) :: rest, hs, e, he, hk => by
    rcases List.pairwise_cons.mp hs with ⟨hk1, hrest⟩
    simp only [storePut] at he
    split at he
    · next hlt =>
      rcases List.mem_cons.mp he with h1 | h2
      · exact h1
      · exfalso
        rcases List.mem_cons.mp h2 with h3 | h4
        · have : strLtB k e.1 = true := by simpa [h3] using hlt
          exact strLtB_ne this hk.symm
        · have h5 : strLtB k1 e.1 = true := hk1 e h4
          have : strLtB k e.1 = true := strLtB_trans hlt h5
          exact strLtB_ne this hk.symm
    · split at he
      · next heq =>
        subst heq
        rcases List.mem_cons.mp he with h1 | h2
        · exact h1
        · exfalso
          have : strLtB k e.1 = true := hk1 e h2
          exact strLtB_ne this hk.symm
      · next hlt hne =>
        rcases List.mem_cons.mp he with h1 | h2
        · exfalso
          have hlt2 : strLtB k k1 = false := by
            cases h : strLtB k k1 with
            | true => exact absurd h hlt
            | false => rfl
          have : strLtB k1 k = true := strLtB_of_not_of_ne hlt2 (fun h => hne h)
          have hek : e.1 = k1 := by simp [h1]
          exact strLtB_ne this (by rw [← hek, hk])
        · exact mem_storePut_key_sorted rest hrest e h2 hk

theorem storePut_perm_fresh (k v : String) :
    ∀ s : Store, (∀ kv ∈ s, kv.1 ≠ k) → (storePut s k v).Perm ((k, v) :: s)
  | [], _ => by simp [storePut]
  | (k1, v1) :: rest, h => by
    simp only [storePut]
    split
    · exact List.Perm.refl _
    · split
      · next heq =>
        exact absurd heq.symm (h (k1, v1) (List.mem_cons_self _ _))
      · have hrest : ∀ kv ∈ rest, kv.1 ≠ k :=
          fun kv hkv => h kv (List.mem_cons_of_mem _ hkv)
        exact ((storePut_perm_fresh k v rest hrest).cons (k1, v1)).trans
          (List.Perm.swap (k, v) (k1, v1) rest)

theorem foldPut_perm :
    ∀ (entries acc : Store),
    ((acc.map Prod.fst) ++ (entries.map Prod.fst)).Nodup →
    (entries.foldl (fun st kv => storePut st kv.1 kv.2) acc).Perm (acc ++ entries)
  | [], acc, _ => by simp
  | e :: rest, acc, h => by
    have hfresh : ∀ kv ∈ acc, kv.1 ≠ e.1 := by
      intro kv hkv hcon
      rcases List.nodup_append.mp h with ⟨_, _, hdisj⟩
      exact hdisj (List.mem_map_of_mem Prod.fst hkv) (by simp [hcon])
    have hperm : (storePut acc e.1 e.2).Perm ((e.1, e.2) :: acc) :=
      storePut_perm_fresh e.1 e.2 acc hfresh
    have hnodup2 :
        (((storePut acc e.1 e.2).map Prod.fst) ++ (rest.map Prod.fst)).Nodup := by
      have hp1 : ((storePut acc e.1 e.2).map Prod.fst).Perm (e.1 :: acc.map Prod.fst) :=
        hperm.map Prod.fst
      have hp2 : (((storePut acc e.1 e.2).map Prod.fst) ++ (rest.map Prod.fst)).Perm
          ((e.1 :: acc.map Prod.fst) ++ (rest.map Prod.fst)) :=
        hp1.append_right _
      refine hp2.nodup_iff.mpr ?_
      have hp3 : ((e.1 :: acc.map Prod.fst) ++ (rest.map Prod.fst)).Perm
          ((acc.map Prod.fst) ++ (e.1 :: rest.map Prod.fst)) :=
        List.perm_middle.symm
      refine hp3.nodup_iff.mpr ?_
      simpa using h
    have ih := foldPut_perm rest (storePut acc e.1 e.2) hnodup2
    have hstep :
        ((e :: rest).foldl (fun st kv => storePut st kv.1 kv.2) acc) =
          (rest.foldl (fun st kv => storePut st kv.1 kv.2) (storePut acc e.1 e.2)) := rfl
    rw [hstep]
    refine ih.trans ?_
    have : ((storePut acc e.1 e.2) ++ rest).Perm (((e.1, e.2) :: acc) ++ rest) :=
      hperm.append_right rest
    refine this.trans ?_
    exact List.perm_middle.symm

/-- The character list of the column-key base `__catalog__columns:{t}:`. -/
def colPreData (t : String) : List Char :=
  "__catalog__columns:".data ++ t.data ++ [':']

theorem colKeyOf_data (t c : String) :
    (colKeyOf t c).data = colPreData t ++ c.data := by
  simp [colKeyOf, colPreData, String.data_append, List.append_assoc]

theorem colScanLo_data (t : String) :
    ("__catalog__columns:" ++ t ++ ":").data = colPreData t := by
  simp [colPreData, String.data_append]

theorem colScanHi_data (t : String) :
    ("__catalog__columns:" ++ t ++ ":~").data = colPreData t ++ ['~'] := by
  have h1 : (":~" : String).data = [':', '~'] := rfl
  simp [colPreData, String.data_append, h1, List.append_assoc]

theorem colPreData_split (t : String) :
    colPreData t = "__catalog__".data ++ 'c' :: ("olumns:".data ++ (t.data ++ [':'])) := by
  have h1 : "__catalog__columns:".data = "__catalog__".data ++ 'c' :: "olumns:".data := rfl
  simp [colPreData, h1, List.append_assoc]

theorem tablesKeyOf_data (t : String) :
    (tablesKeyOf t).data = "__catalog__".data ++ 't' :: ("ables:".data ++ t.data) := by
  have h1 : "__catalog__tables:".data = "__catalog__".data ++ 't' :: "ables:".data := rfl
  simp [tablesKeyOf, String.data_append, h1, List.append_assoc]

theorem colKey_in_range (t name : String) (hname : IdentStr name) :
    (strLeB ("__catalog__columns:" ++ t ++ ":") (colKeyOf t name) &&
      strLeB (colKeyOf t name) ("__catalog__columns:" ++ t ++ ":~")) = true := by
  obtain ⟨hne, hall⟩ := hname
  rcases hd : name.data with _ | ⟨c, cs⟩
  · exact absurd hd hne
  · have hc : IdentChar c := hall c (by simp [hd])
    have h1 : strLeB ("__catalog__columns:" ++ t ++ ":") (colKeyOf t name) = true := by
      simp only [strLeB, strLtB, colKeyOf_data, colScanLo_data]
      rw [lexLtB_append_self]
      rfl
    have h2 : strLeB (colKeyOf t name) ("__catalog__columns:" ++ t ++ ":~") = true := by
      simp only [strLeB, strLtB, colKeyOf_data, colScanHi_data, hd]
      have hlt : lexLtB (colPreData t ++ c :: cs) (colPreData t ++ '~' :: []) = true :=
        lexLtB_append_lt (colPreData t) (by
          have := identChar_lt_tilde hc
          simpa using this) cs []
      rw [lexLtB_asymm hlt]
      rfl
    rw [h1, h2]
    rfl

theorem tablesKey_notin_colRange (t t2 : String) :
    (strLeB ("__catalog__columns:" ++ t ++ ":") (tablesKeyOf t2) &&
      strLeB (tablesKeyOf t2) ("__catalog__columns:" ++ t ++ ":~")) = false := by
  have hlt : lexLtB ("__catalog__columns:" ++ t ++ ":~").data (tablesKeyOf t2).data = true := by
    rw [colScanHi_data, colPreData_split, tablesKeyOf_data]
    rw [List.append_assoc]
    exact lexLtB_append_lt "__catalog__".data (by decide) _ _
  have h2 : strLeB (tablesKeyOf t2) ("__catalog__columns:" ++ t ++ ":~") = false := by
    simp only [strLeB, strLtB, hlt]
    rfl
  rw [h2]
  simp

theorem colKey_lt_tablesKey (t name t2 : String) :
    strLtB (colKeyOf t name) (tablesKeyOf t2) = true := by
  rw [strLtB, colKeyOf_data, colPreData_split, tablesKeyOf_data]
  rw [List.append_assoc]
  exact lexLtB_append_lt "__catalog__".data (by decide) _ _

theorem tablesKey_in_own_range (t : String) :
    (strLeB (tablesKeyOf t) (tablesKeyOf t) &&
      strLeB (tablesKeyOf t) (tablesKeyOf t ++ "~")) = true := by
  have h1 : strLeB (tablesKeyOf t) (tablesKeyOf t) = true := by
    simp only [strLeB, strLtB, lexLtB_irrefl]
    rfl
  have h2 : strLeB (tablesKeyOf t) (tablesKeyOf t ++ "~") = true := by
    simp only [strLeB, strLtB, String.data_append]
    rw [lexLtB_append_self]
    rfl
  rw [h1, h2]
  rfl

theorem colKeyOf_inj (t : String) {a b : String} (h : colKeyOf t a = colKeyOf t b) :
    a = b := by
  have h2 := congrArg String.data h
  rw [colKeyOf_data, colKeyOf_data] at h2
  exact String.ext (List.append_cancel_left h2)

theorem columns_val_ne_deleted (x : String) : ("columns=" ++ x) ≠ "DELETED" := by
  intro h
  have h2 : ("columns=" ++ x).data = "DELETED".data := congrArg String.data h
  rw [String.data_append] at h2
  have h3 : "columns=".data = 'c' :: "olumns=".data := rfl
  have h4 : "DELETED".data = 'D' :: "ELETED".data := rfl
  rw [h3, h4, List.cons_append] at h2
  injection h2 with h5 _
  exact absurd h5 (by decide)

theorem type_val_ne_deleted (x : String) : ("type=" ++ x) ≠ "DELETED" := by
  intro h
  have h2 : ("type=" ++ x).data = "DELETED".data := congrArg String.data h
  rw [String.data_append] at h2
  have h3 : "type=".data = 't' :: "ype=".data := rfl
  have h4 : "DELETED".data = 'D' :: "ELETED".data := rfl
  rw [h3, h4, List.cons_append] at h2
  injection h2 with h5 _
  exact absurd h5 (by decide)
theorem ne_deleted_of_head (v : String) (c : Char) (cs : List Char)
    (h : v.data = c :: cs) (hc : c ≠ 'D') : v ≠ "DELETED" := by
  intro he
  subst he
  have h4 : "DELETED".data = 'D' :: "ELETED".data := rfl
  rw [h4] at h
  injection h with h1 _
  exact hc h1.symm

theorem colVal_data_comma (ty : String) (i : Nat) :
    ("type=" ++ ty ++ ",ordinal=" ++ natRepr i).data =
      ("type=".data ++ ty.data) ++ ',' :: ("ordinal=".data ++ (natRepr i).data) := by
  have h1 : ",ordinal=".data = ',' :: "ordinal=".data := rfl
  simp [String.data_append, h1, List.append_assoc]

theorem metaLookup_colVal (ty : String) (i : Nat)
    (hty : ∀ ch ∈ ty.data, IdentChar ch) :
    metaLookup ("type=" ++ ty ++ ",ordinal=" ++ natRepr i) "ordinal" = natRepr i ∧
    metaLookup ("type=" ++ ty ++ ",ordinal=" ++ natRepr i) "type" = ty := by
  have hsplit : splitChar ',' ("type=" ++ ty ++ ",ordinal=" ++ natRepr i) =
      [String.mk ("type=".data ++ ty.data),
       String.mk ("ordinal=".data ++ (natRepr i).data)] := by
    rw [splitChar, colVal_data_comma]
    rw [splitCharAux_sep ',' _ _ [] (by
      intro x hx
      rcases List.mem_append.mp hx with h1 | h2
      · exact (by decide : ∀ y ∈ "type=".data, y ≠ ',') x h1
      · exact identChar_ne_comma (hty x h2))]
    rw [splitCharAux_no_sep ',' _ [] (by
      intro x hx
      rcases List.mem_append.mp hx with h1 | h2
      · exact (by decide : ∀ y ∈ "ordinal=".data, y ≠ ',') x h1
      · obtain ⟨k, hk, hxk⟩ := (natRepr_shape i).2 x h2
        exact hxk ▸ identChar_ne_comma (digitChar_identChar hk))]
    simp
  have hpart1 : splitChar '=' (String.mk ("type=".data ++ ty.data)) =
      ["type", ty] := by
    have hd : ("type=".data ++ ty.data) = "type".data ++ '=' :: ty.data := by
      have h5 : "type=".data = "type".data ++ ['='] := rfl
      simp [h5, List.append_assoc]
    rw [splitChar]
    show splitCharAux '=' ("type=".data ++ ty.data) [] = ["type", ty]
    rw [hd]
    rw [splitCharAux_sep '=' _ _ []
      (fun x hx => (by decide : ∀ y ∈ "type".data, y ≠ '=') x hx)]
    rw [splitCharAux_no_sep '=' _ [] (fun x hx => identChar_ne_equals (hty x hx))]
    simp
  have hpart2 : splitChar '=' (String.mk ("ordinal=".data ++ (natRepr i).data)) =
      ["ordinal", natRepr i] := by
    have hd : ("ordinal=".data ++ (natRepr i).data) =
        "ordinal".data ++ '=' :: (natRepr i).data := by
      have h5 : "ordinal=".data = "ordinal".data ++ ['='] := rfl
      simp [h5, List.append_assoc]
    rw [splitChar]
    show splitCharAux '=' ("ordinal=".data ++ (natRepr i).data) [] = ["ordinal", natRepr i]
    rw [hd]
    rw [splitCharAux_sep '=' _ _ []
      (fun x hx => (by decide : ∀ y ∈ "ordinal".data, y ≠ '=') x hx)]
    rw [splitCharAux_no_sep '=' _ [] (by
      intro x hx
      obtain ⟨k, hk, hxk⟩ := (natRepr_shape i).2 x hx
      exact hxk ▸ identChar_ne_equals (digitChar_identChar hk))]
    simp
  constructor
  · rw [metaLookup, hsplit]
    simp only [List.filterMap_cons, hpart1, hpart2]
    simp [(by decide : ¬ "type" = "ordinal")]
  · rw [metaLookup, hsplit]
    simp only [List.filterMap_cons, hpart1, hpart2]
    simp [(by decide : ¬ "ordinal" = "type")]

theorem colVal_ne_deleted (ty : String) (i : Nat) :
    ("type=" ++ ty ++ ",ordinal=" ++ natRepr i) ≠ "DELETED" := by
  apply ne_deleted_of_head _ 't'
    (("ype=".data ++ ty.data) ++ ',' :: ("ordinal=".data ++ (natRepr i).data))
  · rw [colVal_data_comma]
    have h3 : "type=".data = 't' :: "ype=".data := rfl
    rw [h3]
    simp [List.append_assoc]
  · decide

theorem splitChar_colKeyOf (t name : String)
    (ht : ∀ ch ∈ t.data, IdentChar ch) (hn : ∀ ch ∈ name.data, IdentChar ch) :
    splitChar ':' (colKeyOf t name) = ["__catalog__columns", t, name] := by
  rw [splitChar, colKeyOf_data, colPreData]
  have hshape : ("__catalog__columns:".data ++ t.data ++ [':']) ++ name.data =
      "__catalog__columns".data ++ ':' :: (t.data ++ ':' :: name.data) := by
    have h1 : "__catalog__columns:".data = "__catalog__columns".data ++ [':'] := rfl
    simp [h1, List.append_assoc]
  rw [hshape]
  rw [splitCharAux_sep ':' _ _ []
    (fun x hx => (by decide : ∀ y ∈ "__catalog__columns".data, y ≠ ':') x hx)]
  rw [splitCharAux_sep ':' _ _ [] (fun x hx => identChar_ne_colon (ht x hx))]
  rw [splitCharAux_no_sep ':' _ [] (fun x hx => identChar_ne_colon (hn x hx))]
  simp

theorem colEntry_parse (t name ty : String) (i : Nat)
    (ht : ∀ ch ∈ t.data, IdentChar ch)
    (hn : ∀ ch ∈ name.data, IdentChar ch)
    (hty : ∀ ch ∈ ty.data, IdentChar ch) :
    (if ("type=" ++ ty ++ ",ordinal=" ++ natRepr i) = "DELETED" then
       (none : Option (Int × ColumnDef))
     else some
       ((pyIntParse (metaLookup ("type=" ++ ty ++ ",ordinal=" ++ natRepr i) "ordinal")).getD 0,
        ColumnDef.mk ((splitChar ':' (colKeyOf t name)).getLastD "")
          (metaLookup ("type=" ++ ty ++ ",ordinal=" ++ natRepr i) "type")))
      = some ((i : Int), ColumnDef.mk name ty) := by
  obtain ⟨hord, htyp⟩ := metaLookup_colVal ty i hty
  rw [if_neg (colVal_ne_deleted ty i), hord, htyp, splitChar_colKeyOf t name ht hn,
    pyIntParse_natRepr]
  rfl

theorem filterMap_eq_map_of_some (f : α → Option β) (h : α → β) :
    ∀ l : List α, (∀ x ∈ l, f x = some (h x)) → l.filterMap f = l.map h
  | [], _ => rfl
  | a :: l, hall => by
    rw [List.filterMap_cons, hall a (List.mem_cons_self a l),
      filterMap_eq_map_of_some f h l (fun x hx => hall x (List.mem_cons_of_mem a hx))]
    rfl

theorem foldl_map_put (key val : α → String) :
    ∀ (l : List α) (s : Store),
    l.foldl (fun st x => storePut st (key x) (val x)) s =
      (l.map (fun x => (key x, val x))).foldl (fun st kv => storePut st kv.1 kv.2) s
  | [], _ => rfl
  | a :: l, s => by
    simp only [List.map_cons, List.foldl_cons]
    exact foldl_map_put key val l (storePut s (key a) (val a))

theorem foldPut_sorted :
    ∀ (l : List (String × String)) (s : Store), SortedStore s →
    SortedStore (l.foldl (fun st kv => storePut st kv.1 kv.2) s)
  | [], _, hs => hs
  | e :: l, s, hs => by
    simp only [List.foldl_cons]
    exact foldPut_sorted l (storePut s e.1 e.2) (storePut_sorted e.1 e.2 s hs)

theorem foldDel_sorted :
    ∀ (l : List (String × String)) (s : Store), SortedStore s →
    SortedStore (l.foldl
      (fun st kv => if kv.2 != "DELETED" then storePut st kv.1 "DELETED" else st) s)
  | [], _, hs => hs
  | e :: l, s, hs => by
    simp only [List.foldl_cons]
    refine foldDel_sorted l _ ?_
    split
    · exact storePut_sorted e.1 "DELETED" s hs
    · exact hs

/-- The catalog rows `create_table` writes for the columns of `t`, in
declared order. -/
def colEntriesOf (t : String) (cols : List ColumnDef) : Store :=
  cols.enum.map (fun ic =>
    (colKeyOf t ic.2.name, "type=" ++ ic.2.type ++ ",ordinal=" ++ natRepr ic.1))

/-- The parsed (ordinal, column) pairs `get_columns` recovers, in declared
order. -/
def canonicalColsOf (cols : List ColumnDef) : List (Int × ColumnDef) :=
  cols.enum.map (fun ic => ((ic.1 : Int), ColumnDef.mk ic.2.name ic.2.type))

theorem colEntries_keys (t : String) (cols : List ColumnDef) :
    (colEntriesOf t cols).map Prod.fst = (cols.map ColumnDef.name).map (colKeyOf t) := by
  rw [colEntriesOf, List.map_map, List.map_map]
  conv_rhs => rw [← List.enum_map_snd cols, List.map_map]
  exact List.map_congr_left (fun ic _ => rfl)

theorem colEntries_keys_nodup (t : String) (cols : List ColumnDef)
    (hnodup : (cols.map ColumnDef.name).Nodup) :
    ((colEntriesOf t cols).map Prod.fst).Nodup := by
  rw [colEntries_keys]
  exact List.Nodup.map (fun a b h => colKeyOf_inj t h) hnodup

theorem colEntries_filterMap (t : String) (cols : List ColumnDef)
    (htchars : ∀ ch ∈ t.data, IdentChar ch)
    (hcols : ∀ c ∈ cols, IdentStr c.name ∧ ∀ ch ∈ c.type.data, IdentChar ch) :
    (colEntriesOf t cols).filterMap
      (fun kv =>
        if kv.2 = "DELETED" then none
        else
          some ((pyIntParse (metaLookup kv.2 "ordinal")).getD 0,
            ColumnDef.mk ((splitChar ':' kv.1).getLastD "") (metaLookup kv.2 "type")))
      = canonicalColsOf cols := by
  rw [colEntriesOf, List.filterMap_map, canonicalColsOf]
  apply filterMap_eq_map_of_some
  intro ic hic
  have hmem : ic.2 ∈ cols := by
    have h1 := List.mem_map_of_mem Prod.snd hic
    rwa [List.enum_map_snd] at h1
  obtain ⟨hname, htype⟩ := hcols ic.2 hmem
  exact colEntry_parse t ic.2.name ic.2.type ic.1 htchars hname.2 htype

theorem canonical_pairwise (cols : List ColumnDef) :
    (canonicalColsOf cols).Pairwise (fun a b => a.1 < b.1) := by
  rw [canonicalColsOf]
  rw [List.pairwise_map]
  have h1 : cols.enum.Pairwise (fun a b => a.1 < b.1) := by
    have h2 : (cols.enum.map Prod.fst).Pairwise (fun a b => a < b) := by
      rw [List.enum_map_fst]
      exact List.pairwise_lt_range _
    rwa [List.pairwise_map] at h2
  exact h1.imp (fun h => Int.ofNat_lt.mpr h)

theorem canonical_map_snd (cols : List ColumnDef) :
    (canonicalColsOf cols).map (fun x => x.2) = cols := by
  rw [canonicalColsOf, List.map_map]
  exact (List.map_congr_left fun ic _ => rfl).trans (List.enum_map_snd cols)

theorem sortStable_int_key {l l2 : List (Int × ColumnDef)}
    (hperm : l2.Perm l)
    (hsorted : l.Pairwise (fun a b => a.1 < b.1)) :
    sortStable (fun a b => decide (a.1 < b.1)) l2 = l := by
  have hpermS : (sortStable (fun a b => decide (a.1 < b.1)) l2).Perm l :=
    (sortStable_perm _ l2).trans hperm
  have hkeysnodup : (l.map Prod.fst).Nodup :=
    (List.pairwise_map.mpr hsorted).imp ne_of_lt
  have hkeys2 : ((sortStable (fun a b => decide (a.1 < b.1)) l2).map Prod.fst).Nodup :=
    ((hpermS.map Prod.fst).nodup_iff).mpr hkeysnodup
  have h1 : (sortStable (fun a b => decide (a.1 < b.1)) l2).Pairwise
      (fun x y => decide (y.1 < x.1) = false) :=
    sortStable_pairwise_on _ (fun _ => True)
      (fun x y _ _ hxy => by
        simp only [decide_eq_true_eq] at hxy
        simp only [decide_eq_false_iff_not]
        omega)
      (fun x y z _ _ _ ha hb => by
        simp only [decide_eq_false_iff_not] at ha hb ⊢
        omega)
      l2 (fun _ _ => trivial)
  have h2 : (sortStable (fun a b => decide (a.1 < b.1)) l2).Pairwise
      (fun x y => x.1 ≠ y.1) := List.pairwise_map.mp hkeys2
  have h3 : (sortStable (fun a b => decide (a.1 < b.1)) l2).Pairwise
      (fun x y => x.1 < y.1) := by
    refine (h1.and h2).imp ?_
    rintro a b ⟨hnlt, hne⟩
    simp only [decide_eq_false_iff_not] at hnlt
    omega
  haveI : IsAntisymm (Int × ColumnDef) (fun a b => a.1 < b.1) :=
    ⟨fun a b hab hba => absurd hba (lt_asymm hab)⟩
  exact List.eq_of_perm_of_sorted hpermS h3 hsorted

theorem createTable_describe (t : String) (cols : List ColumnDef)
    (ht : IdentStr t)
    (hcols : ∀ c ∈ cols, IdentStr c.name ∧ ∀ ch ∈ c.type.data, IdentChar ch)
    (hnodup : (cols.map ColumnDef.name).Nodup) :
    ∃ s2, createTable [] t cols = .ok s2 ∧ SortedStore s2 ∧
      tableExistsB s2 t = true ∧ getColumns s2 t = .ok cols := by
  have hnodupkeys :
      (([(tablesKeyOf t, "columns=" ++ natRepr cols.length)].map Prod.fst) ++
        ((colEntriesOf t cols).map Prod.fst)).Nodup := by
    refine List.nodup_cons.mpr ⟨?_, colEntries_keys_nodup t cols hnodup⟩
    intro hcontra
    rw [colEntries_keys] at hcontra
    obtain ⟨nm, _, heq⟩ := List.mem_map.mp hcontra
    have hlt := colKey_lt_tablesKey t nm t
    rw [heq] at hlt
    have hirr : strLtB (tablesKeyOf t) (tablesKeyOf t) = false := lexLtB_irrefl _
    rw [hirr] at hlt
    exact Bool.false_ne_true hlt
  have hperm : ((colEntriesOf t cols).foldl (fun st kv => storePut st kv.1 kv.2)
      [(tablesKeyOf t, "columns=" ++ natRepr cols.length)]).Perm
      ((tablesKeyOf t, "columns=" ++ natRepr cols.length) :: colEntriesOf t cols) :=
    foldPut_perm (colEntriesOf t cols)
      [(tablesKeyOf t, "columns=" ++ natRepr cols.length)] hnodupkeys
  have hsorted2 : SortedStore ((colEntriesOf t cols).foldl
      (fun st kv => storePut st kv.1 kv.2)
      [(tablesKeyOf t, "columns=" ++ natRepr cols.length)]) :=
    foldPut_sorted (colEntriesOf t cols) _ (by simp [SortedStore])
  have hfold2 : cols.enum.foldl
      (fun st ic => storePut st (colKeyOf t ic.2.name)
        ("type=" ++ ic.2.type ++ ",ordinal=" ++ natRepr ic.1))
      (storePut [] (tablesKeyOf t) ("columns=" ++ natRepr cols.length)) =
      (colEntriesOf t cols).foldl (fun st kv => storePut st kv.1 kv.2)
        [(tablesKeyOf t, "columns=" ++ natRepr cols.length)] :=
    foldl_map_put (fun ic => colKeyOf t ic.2.name)
      (fun ic => "type=" ++ ic.2.type ++ ",ordinal=" ++ natRepr ic.1) cols.enum _
  have hex : tableExistsB ((colEntriesOf t cols).foldl
      (fun st kv => storePut st kv.1 kv.2)
      [(tablesKeyOf t, "columns=" ++ natRepr cols.length)]) t = true := by
    apply List.any_eq_true.mpr
    refine ⟨(tablesKeyOf t, "columns=" ++ natRepr cols.length), ?_, ?_⟩
    · exact List.mem_filter.mpr
        ⟨hperm.mem_iff.mpr (List.mem_cons_self _ _), tablesKey_in_own_range t⟩
    · show (tablesKeyOf t == tablesKeyOf t &&
        ("columns=" ++ natRepr cols.length) != "DELETED") = true
      rw [beq_self_eq_true]
      rw [bne_iff_ne.mpr (columns_val_ne_deleted _)]
      rfl
  have hrperm : (rangeScan ((colEntriesOf t cols).foldl
      (fun st kv => storePut st kv.1 kv.2)
      [(tablesKeyOf t, "columns=" ++ natRepr cols.length)])
      ("__catalog__columns:" ++ t ++ ":") ("__catalog__columns:" ++ t ++ ":~")).Perm
      (colEntriesOf t cols) := by
    have h1 := hperm.filter
      (fun kv => strLeB ("__catalog__columns:" ++ t ++ ":") kv.1 &&
        strLeB kv.1 ("__catalog__columns:" ++ t ++ ":~"))
    have h2 : List.filter
        (fun kv => strLeB ("__catalog__columns:" ++ t ++ ":") kv.1 &&
          strLeB kv.1 ("__catalog__columns:" ++ t ++ ":~"))
        ((tablesKeyOf t, "columns=" ++ natRepr cols.length) :: colEntriesOf t cols) =
        colEntriesOf t cols := by
      rw [List.filter_cons]
      rw [show (strLeB ("__catalog__columns:" ++ t ++ ":") (tablesKeyOf t) &&
        strLeB (tablesKeyOf t) ("__catalog__columns:" ++ t ++ ":~")) = false from
        tablesKey_notin_colRange t t]
      simp only [Bool.false_eq_true, if_false]
      apply List.filter_eq_self.mpr
      intro kv hkv
      obtain ⟨ic, hic, hgic⟩ := List.mem_map.mp hkv
      have hmem : ic.2 ∈ cols := by
        have h3 := List.mem_map_of_mem Prod.snd hic
        rwa [List.enum_map_snd] at h3
      rw [← hgic]
      exact colKey_in_range t ic.2.name (hcols ic.2 hmem).1
    rw [h2] at h1
    exact h1
  have hfm : ((rangeScan ((colEntriesOf t cols).foldl
      (fun st kv => storePut st kv.1 kv.2)
      [(tablesKeyOf t, "columns=" ++ natRepr cols.length)])
      ("__catalog__columns:" ++ t ++ ":") ("__catalog__columns:" ++ t ++ ":~")).filterMap
      (fun kv =>
        if kv.2 = "DELETED" then none
        else
          some ((pyIntParse (metaLookup kv.2 "ordinal")).getD 0,
            ColumnDef.mk ((splitChar ':' kv.1).getLastD "") (metaLookup kv.2 "type")))).Perm
      (canonicalColsOf cols) := by
    have h1 := hrperm.filterMap
      (fun kv =>
        if kv.2 = "DELETED" then none
        else
          some ((pyIntParse (metaLookup kv.2 "ordinal")).getD 0,
            ColumnDef.mk ((splitChar ':' kv.1).getLastD "") (metaLookup kv.2 "type")))
    rwa [colEntries_filterMap t cols ht.2 hcols] at h1
  have hsort := sortStable_int_key hfm (canonical_pairwise cols)
  refine ⟨cols.enum.foldl
      (fun st (ic : Nat × ColumnDef) => storePut st (colKeyOf t ic.2.name)
        ("type=" ++ ic.2.type ++ ",ordinal=" ++ natRepr ic.1))
      (storePut [] (tablesKeyOf t) ("columns=" ++ natRepr cols.length)),
    rfl, ?_, ?_, ?_⟩
  · rw [hfold2]; exact hsorted2
  · rw [hfold2]; exact hex
  · rw [hfold2]
    have hexx := hex
    calc getColumns ((colEntriesOf t cols).foldl (fun st kv => storePut st kv.1 kv.2)
          [(tablesKeyOf t, "columns=" ++ natRepr cols.length)]) t
        = .ok ((sortStable (fun a b => decide (a.1 < b.1))
            ((rangeScan ((colEntriesOf t cols).foldl (fun st kv => storePut st kv.1 kv.2)
              [(tablesKeyOf t, "columns=" ++ natRepr cols.length)])
              ("__catalog__columns:" ++ t ++ ":")
              ("__catalog__columns:" ++ t ++ ":~")).filterMap
              (fun kv =>
                if kv.2 = "DELETED" then none
                else
                  some ((pyIntParse (metaLookup kv.2 "ordinal")).getD 0,
                    ColumnDef.mk ((splitChar ':' kv.1).getLastD "")
                      (metaLookup kv.2 "type"))))).map (fun x => x.2)) := by
          rw [getColumns, hexx]
          rfl
      _ = .ok ((canonicalColsOf cols).map (fun x => x.2)) := by rw [hsort]
      _ = .ok cols := by rw [canonical_map_snd]

theorem dropTable_general (s : Store) (t : String) (hs : SortedStore s)
    (hex : tableExistsB s t = true) :
    ∃ s3, dropTable s t = .ok s3 ∧ tableExistsB s3 t = false ∧ t ∉ getTables s3 := by
  have hs1 : SortedStore ((rangeScan s ("__catalog__columns:" ++ t ++ ":")
      ("__catalog__columns:" ++ t ++ ":~")).foldl
      (fun st kv => if kv.2 != "DELETED" then storePut st kv.1 "DELETED" else st) s) :=
    foldDel_sorted _ s hs
  refine ⟨storePut ((rangeScan s ("__catalog__columns:" ++ t ++ ":")
      ("__catalog__columns:" ++ t ++ ":~")).foldl
      (fun st kv => if kv.2 != "DELETED" then storePut st kv.1 "DELETED" else st) s)
      (tablesKeyOf t) "DELETED", ?_, ?_, ?_⟩
  · rw [dropTable, hex]
    rfl
  · apply List.any_eq_false.mpr
    intro kv hkv
    have hkv2 : kv ∈ storePut ((rangeScan s ("__catalog__columns:" ++ t ++ ":")
        ("__catalog__columns:" ++ t ++ ":~")).foldl
        (fun st kv => if kv.2 != "DELETED" then storePut st kv.1 "DELETED" else st) s)
        (tablesKeyOf t) "DELETED" := (List.mem_filter.mp hkv).1
    by_cases hk : kv.1 = tablesKeyOf t
    · have hkveq := mem_storePut_key_sorted _ hs1 kv hkv2 hk
      rw [hkveq]
      simp
    · simp only [Bool.and_eq_true, beq_iff_eq]
      intro hcontra
      exact hk hcontra.1
  · intro hmem
    have hgt : getTables (storePut ((rangeScan s ("__catalog__columns:" ++ t ++ ":")
        ("__catalog__columns:" ++ t ++ ":~")).foldl
        (fun st kv => if kv.2 != "DELETED" then storePut st kv.1 "DELETED" else st) s)
        (tablesKeyOf t) "DELETED") =
        sortStable strLtB ((rangeScan (storePut ((rangeScan s
            ("__catalog__columns:" ++ t ++ ":") ("__catalog__columns:" ++ t ++ ":~")).foldl
            (fun st kv => if kv.2 != "DELETED" then storePut st kv.1 "DELETED" else st) s)
            (tablesKeyOf t) "DELETED")
          "__catalog__tables:" ("__catalog__tables:" ++ "~")).filterMap
          (fun kv => if kv.2 = "DELETED" then none
            else some (String.mk (kv.1.data.drop "__catalog__tables:".length)))) := rfl
    rw [hgt] at hmem
    have hmem2 := (sortStable_perm strLtB _).mem_iff.mp hmem
    obtain ⟨kv, hkvscan, hf⟩ := List.mem_filterMap.mp hmem2
    have hkv3 : kv ∈ storePut ((rangeScan s ("__catalog__columns:" ++ t ++ ":")
        ("__catalog__columns:" ++ t ++ ":~")).foldl
        (fun st kv => if kv.2 != "DELETED" then storePut st kv.1 "DELETED" else st) s)
        (tablesKeyOf t) "DELETED" := (List.mem_filter.mp hkvscan).1
    have hp2 := (List.mem_filter.mp hkvscan).2
    simp only [Bool.and_eq_true] at hp2
    obtain ⟨hplo, hphi⟩ := hp2
    by_cases hdel : kv.2 = "DELETED"
    · rw [if_pos hdel] at hf
      exact absurd hf (by simp)
    · rw [if_neg hdel] at hf
      have hmk : String.mk (kv.1.data.drop "__catalog__tables:".length) = t :=
        Option.some.inj hf
      have hlo2 : lexLtB kv.1.data "__catalog__tables:".data = false := by
        have h1 : strLtB kv.1 "__catalog__tables:" = false := by
          rw [strLeB] at hplo
          cases h : strLtB kv.1 "__catalog__tables:"
          · rfl
          · rw [h] at hplo
            exact absurd hplo (by decide)
        exact h1
      have hhi2 : lexLtB ("__catalog__tables:".data ++ ['~']) kv.1.data = false := by
        have h1 : strLtB ("__catalog__tables:" ++ "~") kv.1 = false := by
          rw [strLeB] at hphi
          cases h : strLtB ("__catalog__tables:" ++ "~") kv.1
          · rfl
          · rw [h] at hphi
            exact absurd hphi (by decide)
        have h2 : ("__catalog__tables:" ++ "~").data =
            "__catalog__tables:".data ++ ['~'] := by
          simp [String.data_append]
        rw [strLtB, h2] at h1
        exact h1
      obtain ⟨rest, hrest⟩ := lexLtB_between_extends "__catalog__tables:".data
        kv.1.data hlo2 hhi2
      have hdrop : kv.1.data.drop "__catalog__tables:".length = rest := by
        rw [hrest]
        exact List.drop_left _ _
      have hrt : rest = t.data := by
        have h3 := congrArg String.data hmk
        rw [hdrop] at h3
        exact h3
      have hkey : kv.1 = tablesKeyOf t := by
        apply String.ext
        rw [hrest, hrt, tablesKeyOf]
        simp [String.data_append]
      have hkveq := mem_storePut_key_sorted _ hs1 kv hkv3 hkey
      have : kv.2 = "DELETED" := by rw [hkveq]
      exact hdel this

/-- C8 counterexample: the claim quantifies over every column list, but with
duplicate declared column names the second `__catalog__columns:t:{name}` row
overwrites the first (same key), so after
`CREATE TABLE t (a INT, a TEXT)` `describe_table` returns the single column
`a TEXT`, not the two declared columns in declared order. -/
theorem C8_duplicate_column_counterexample :
    ∃ s2, createTable [] "t" [ColumnDef.mk "a" "INT", ColumnDef.mk "a" "TEXT"] =
        .ok s2 ∧
      getColumns s2 "t" = .ok [ColumnDef.mk "a" "TEXT"] ∧
      [ColumnDef.mk "a" "TEXT"] ≠ [ColumnDef.mk "a" "INT", ColumnDef.mk "a" "TEXT"] :=
  ⟨[("__catalog__columns:t:a", "type=TEXT,ordinal=1"),
    ("__catalog__tables:t", "columns=2")], by rfl, by rfl, by simp⟩

/-- C8 (amended): for every identifier table name and every column list with
identifier names/types and pairwise-distinct column names, after
`CREATE TABLE t (...)` on an empty store `describe_table(t)` returns exactly
the declared columns in declared order (sorted by stored ordinal), and after
`DROP TABLE t` the table no longer exists and `list_tables()` excludes it. -/
theorem C8_catalog_consistency_amended (t : String) (cols : List ColumnDef)
    (ht : IdentStr t)
    (hcols : ∀ c ∈ cols, IdentStr c.name ∧ ∀ ch ∈ c.type.data, IdentChar ch)
    (hnodup : (cols.map ColumnDef.name).Nodup) :
    ∃ s2, createTable [] t cols = .ok s2 ∧ getColumns s2 t = .ok cols ∧
      ∃ s3, dropTable s2 t = .ok s3 ∧
        tableExistsB s3 t = false ∧ t ∉ getTables s3 := by
  obtain ⟨s2, hc, hsort, hex, hgc⟩ := createTable_describe t cols ht hcols hnodup
  obtain ⟨s3, hd, he, hnt⟩ := dropTable_general s2 t hsort hex
  exact ⟨s2, hc, hgc, s3, hd, he, hnt⟩

/-- Witness for C8 (amended): the `users(id INT, name TEXT)` table. -/
theorem C8_catalog_consistency_amended_witness :
    IdentStr "users" ∧
    (∀ c ∈ [ColumnDef.mk "id" "INT", ColumnDef.mk "name" "TEXT"],
      IdentStr c.name ∧ ∀ ch ∈ c.type.data, IdentChar ch) ∧
    (([ColumnDef.mk "id" "INT", ColumnDef.mk "name" "TEXT"].map ColumnDef.name).Nodup) ∧
    (∃ s2, createTable [] "users"
        [ColumnDef.mk "id" "INT", ColumnDef.mk "name" "TEXT"] = .ok s2 ∧
      getColumns s2 "users" = .ok [ColumnDef.mk "id" "INT", ColumnDef.mk "name" "TEXT"] ∧
      ∃ s3, dropTable s2 "users" = .ok s3 ∧
        tableExistsB s3 "users" = false ∧ "users" ∉ getTables s3) :=
  ⟨by decide, by decide, by decide,
    C8_catalog_consistency_amended "users"
      [ColumnDef.mk "id" "INT", ColumnDef.mk "name" "TEXT"]
      (by decide) (by decide) (by decide)⟩
